import Mathlib

/-!
Verification of the project-aggregation layer of `orbiter`
(`src/orbiter/objects/project.py`).

The development shallowly embeds `OrbiterProject` and its operations.
Python `dict`s are embedded as insertion-ordered association lists
(`Dict α`), with `dictInsert` reproducing Python's `d[k] = v` semantics:
an existing key keeps its position and gets the new value, a fresh key is
appended at the end.  (A Python dict never holds the same key twice, so
replacing the first binding of the key is exact.)  Python `set`s of
requirements are embedded as duplicate-free lists in insertion order
(`setAdd`).

The entity classes (`OrbiterPool`, `OrbiterConnection`, ...) live outside
the given source tree; only their identity keys and merge operations are
needed here, and those are reconstructed from the spec and from the
doctests inside `project.py` (see the doc comments on the individual
definitions).
-/

/-- Python `dict` with `String` keys: insertion-ordered association list. -/
abbrev Dict (α : Type) := List (String × α)

/-- Python `d[k]`: the value stored under key `k`, if any. -/
def dictGet {α : Type} (d : Dict α) (k : String) : Option α :=
  (d.find? (fun kv => kv.1 == k)).map (fun kv => kv.2)

/-- Python `d[k] = v`: overwrite in place if the key exists (keeping its
position), otherwise append the new binding at the end. -/
def dictInsert {α : Type} : Dict α → String → α → Dict α
  | [], k, v => [(k, v)]
  | kv :: d, k, v => if kv.1 = k then (k, v) :: d else kv :: dictInsert d k v

/-- `k in d` for a Python dict. -/
def hasKey {α : Type} (d : Dict α) (k : String) : Bool :=
  (dictGet d k).isSome

/-- The keys of a dict, in insertion order. -/
def keysOf {α : Type} (d : Dict α) : List String :=
  d.map (fun kv => kv.1)

/-- Well-formedness of the embedding: a Python dict never holds the same
key twice. -/
def nodupKeys {α : Type} (d : Dict α) : Prop :=
  (keysOf d).Nodup

instance {α : Type} (d : Dict α) : Decidable (nodupKeys d) := by
  unfold nodupKeys; infer_instance

/-- Python `set.add` on a set embedded as a duplicate-free list in
insertion order. -/
def setAdd {α : Type} [DecidableEq α] (s : List α) (x : α) : List α :=
  if x ∈ s then s else s ++ [x]

/-- Fold `dictInsert` over a batch of bindings (the shape of every
overwrite-kind add-operation). -/
def foldIns {α : Type} (d : Dict α) (s : Dict α) : Dict α :=
  s.foldl (fun acc kv => dictInsert acc kv.1 kv.2) d

/-- The value of the last binding for `k` in a batch, if any. -/
def lastOcc {α : Type} (s : Dict α) (k : String) : Option α :=
  (s.reverse.find? (fun kv => kv.1 == k)).map (fun kv => kv.2)

-- ### Basic dict lemmas

theorem dictGet_nil {α : Type} (k : String) : dictGet ([] : Dict α) k = none := rfl

theorem dictGet_cons {α : Type} (kv : String × α) (d : Dict α) (k : String) :
    dictGet (kv :: d) k = if kv.1 = k then some kv.2 else dictGet d k := by
  simp only [dictGet, List.find?]
  by_cases h : kv.1 = k
  · simp [h]
  · simp [h, beq_eq_false_iff_ne.mpr h]

theorem hasKey_cons {α : Type} (kv : String × α) (d : Dict α) (k : String) :
    hasKey (kv :: d) k = if kv.1 = k then true else hasKey d k := by
  simp only [hasKey, dictGet_cons]
  by_cases h : kv.1 = k
  · simp [h]
  · simp [h]

theorem hasKey_iff_mem {α : Type} (d : Dict α) (k : String) :
    hasKey d k = true ↔ k ∈ keysOf d := by
  induction d with
  | nil => simp [hasKey, dictGet, keysOf]
  | cons kv d ih =>
      rw [hasKey_cons, show keysOf (kv :: d) = kv.1 :: keysOf d from rfl, List.mem_cons]
      by_cases h : kv.1 = k
      · simp [h]
      · rw [if_neg h, ih]
        simp [Ne.symm h]

theorem dictGet_insert {α : Type} (d : Dict α) (k k2 : String) (v : α) :
    dictGet (dictInsert d k v) k2 = if k2 = k then some v else dictGet d k2 := by
  induction d with
  | nil =>
      rw [show dictInsert ([] : Dict α) k v = [(k, v)] from rfl, dictGet_cons, dictGet_nil]
      by_cases h : k2 = k
      · simp [h]
      · rw [if_neg h, if_neg (Ne.symm h)]
  | cons kv d ih =>
      by_cases h1 : kv.1 = k
      · rw [show dictInsert (kv :: d) k v = (k, v) :: d from by simp [dictInsert, h1],
          dictGet_cons, dictGet_cons]
        by_cases h2 : k2 = k
        · rw [if_pos (show (k, v).1 = k2 from h2.symm), if_pos h2]
        · rw [if_neg h2, if_neg (show ¬ (k, v).1 = k2 from Ne.symm h2),
            if_neg (show ¬ kv.1 = k2 from h1 ▸ Ne.symm h2)]
      · rw [show dictInsert (kv :: d) k v = kv :: dictInsert d k v from by
            simp [dictInsert, h1],
          dictGet_cons, dictGet_cons, ih]
        by_cases h2 : kv.1 = k2
        · have hne : ¬ k2 = k := fun hc => h1 (h2.trans hc)
          rw [if_pos h2, if_neg hne, if_pos h2]
        · rw [if_neg h2, if_neg h2]

theorem keysOf_insert {α : Type} (d : Dict α) (k : String) (v : α) :
    keysOf (dictInsert d k v) = if hasKey d k then keysOf d else keysOf d ++ [k] := by
  induction d with
  | nil => simp [dictInsert, keysOf, hasKey, dictGet]
  | cons kv d ih =>
      by_cases h1 : kv.1 = k
      · have hk : hasKey (kv :: d) k = true := by
          rw [hasKey_cons, if_pos h1]
        rw [show dictInsert (kv :: d) k v = (k, v) :: d from by simp [dictInsert, h1], hk]
        simp [keysOf, h1]
      · have hk : hasKey (kv :: d) k = hasKey d k := by
          rw [hasKey_cons, if_neg h1]
        rw [show dictInsert (kv :: d) k v = kv :: dictInsert d k v from by
            simp [dictInsert, h1],
          show keysOf (kv :: dictInsert d k v) = kv.1 :: keysOf (dictInsert d k v) from rfl,
          ih, hk, show keysOf (kv :: d) = kv.1 :: keysOf d from rfl]
        by_cases h2 : hasKey d k = true
        · rw [if_pos h2, if_pos h2]
        · simp only [Bool.not_eq_true] at h2
          simp [h2]

theorem nodupKeys_insert {α : Type} (d : Dict α) (k : String) (v : α)
    (h : nodupKeys d) : nodupKeys (dictInsert d k v) := by
  unfold nodupKeys
  rw [keysOf_insert]
  by_cases hk : hasKey d k = true
  · simpa [hk] using h
  · have : k ∉ keysOf d := fun hmem => hk ((hasKey_iff_mem d k).mpr hmem)
    simp only [hk, Bool.false_eq_true, if_false]
    simpa [List.nodup_append] using ⟨h, this⟩

theorem hasKey_insert_of_hasKey {α : Type} (d : Dict α) (k k2 : String) (v : α)
    (h : hasKey d k2 = true) : hasKey (dictInsert d k v) k2 = true := by
  unfold hasKey at h ⊢
  rw [dictGet_insert]
  by_cases h2 : k2 = k
  · simp [h2]
  · simpa [h2] using h

theorem hasKey_insert_self {α : Type} (d : Dict α) (k : String) (v : α) :
    hasKey (dictInsert d k v) k = true := by
  unfold hasKey
  rw [dictGet_insert]
  simp

theorem dictInsert_idem {α : Type} (d : Dict α) (k : String) (v : α) :
    dictInsert (dictInsert d k v) k v = dictInsert d k v := by
  induction d with
  | nil => simp [dictInsert]
  | cons kv d ih =>
      simp only [dictInsert]
      by_cases h1 : kv.1 = k
      · simp [h1, dictInsert]
      · simp [h1, dictInsert, ih]

theorem dictInsert_self_of_get {α : Type} (d : Dict α) (k : String) (v : α)
    (h : dictGet d k = some v) : dictInsert d k v = d := by
  induction d with
  | nil => simp [dictGet] at h
  | cons kv d ih =>
      rw [dictGet_cons] at h
      simp only [dictInsert]
      by_cases h1 : kv.1 = k
      · simp only [h1, if_true] at h ⊢
        simp only [Option.some.injEq] at h
        cases kv
        simp_all
      · simp only [h1, if_false] at h ⊢
        simp [ih h]

theorem dictGet_eq_some_mem {α : Type} (d : Dict α) (k : String) (v : α)
    (h : dictGet d k = some v) : (k, v) ∈ d := by
  induction d with
  | nil => simp [dictGet] at h
  | cons kv d ih =>
      rw [dictGet_cons] at h
      by_cases h1 : kv.1 = k
      · simp only [h1, if_true, Option.some.injEq] at h
        subst h1; subst h
        exact List.mem_cons_self _ _
      · simp only [h1, if_false] at h
        exact List.mem_cons_of_mem _ (ih h)

theorem dictExt {α : Type} (d1 d2 : Dict α) (hk : keysOf d1 = keysOf d2)
    (hn : nodupKeys d1) (hl : ∀ k, dictGet d1 k = dictGet d2 k) : d1 = d2 := by
  induction d1 generalizing d2 with
  | nil =>
      cases d2 with
      | nil => rfl
      | cons kv d2 => simp [keysOf] at hk
  | cons kv d1 ih =>
      cases d2 with
      | nil => simp [keysOf] at hk
      | cons kv2 d2 =>
          simp only [keysOf, List.map_cons, List.cons.injEq] at hk
          obtain ⟨hkeq, hktail⟩ := hk
          have hveq : kv.2 = kv2.2 := by
            have := hl kv.1
            rw [dictGet_cons, dictGet_cons] at this
            simp [hkeq] at this
            exact this
          have hn1 : nodupKeys d1 := by
            unfold nodupKeys at hn ⊢
            simpa [keysOf] using (List.nodup_cons.mp hn).2
          have hnotin : kv.1 ∉ keysOf d1 := by
            unfold nodupKeys at hn
            simpa [keysOf] using (List.nodup_cons.mp hn).1
          have htail : ∀ k, dictGet d1 k = dictGet d2 k := by
            intro k
            by_cases h : kv.1 = k
            · subst h
              have h1 : dictGet d1 kv.1 = none := by
                cases hg : dictGet d1 kv.1 with
                | none => rfl
                | some v =>
                    exact absurd ((hasKey_iff_mem d1 kv.1).mp (by simp [hasKey, hg])) hnotin
              have h2 : dictGet d2 kv.1 = none := by
                cases hg : dictGet d2 kv.1 with
                | none => rfl
                | some v =>
                    have hmem2 : kv.1 ∈ keysOf d2 :=
                      (hasKey_iff_mem d2 kv.1).mp (by simp [hasKey, hg])
                    have hmem1 : kv.1 ∈ keysOf d1 := by
                      unfold keysOf at hmem2 ⊢
                      rw [hktail]
                      exact hmem2
                    exact absurd hmem1 hnotin
              rw [h1, h2]
            · have h2 : ¬ (kv2.1 = k) := fun hc => h (hkeq.trans hc)
              have := hl k
              rw [dictGet_cons, dictGet_cons, if_neg h, if_neg h2] at this
              exact this
          have : d1 = d2 := ih d2 hktail hn1 htail
          cases kv; cases kv2
          simp_all

-- ### Lemmas about folding a batch of insertions

theorem foldIns_nil {α : Type} (d : Dict α) : foldIns d [] = d := rfl

theorem foldIns_cons {α : Type} (d : Dict α) (kv : String × α) (s : Dict α) :
    foldIns d (kv :: s) = foldIns (dictInsert d kv.1 kv.2) s := rfl

theorem lastOcc_nil {α : Type} (k : String) : lastOcc ([] : Dict α) k = none := rfl

theorem lastOcc_cons {α : Type} (kv : String × α) (s : Dict α) (k : String) :
    lastOcc (kv :: s) k =
      (lastOcc s k).or (if kv.1 = k then some kv.2 else none) := by
  simp only [lastOcc, List.reverse_cons, List.find?_append]
  cases hf : (s.reverse.find? (fun kv => kv.1 == k)) with
  | none =>
      simp only [hf, Option.map_none', Option.none_or]
      by_cases h : kv.1 = k
      · simp [List.find?, h]
      · simp [List.find?, beq_eq_false_iff_ne.mpr h, h]
  | some a => simp [hf]

theorem dictGet_foldIns {α : Type} (s : Dict α) (d : Dict α) (k : String) :
    dictGet (foldIns d s) k = (lastOcc s k).or (dictGet d k) := by
  induction s generalizing d with
  | nil => simp [foldIns_nil, lastOcc_nil]
  | cons kv s ih =>
      rw [foldIns_cons, ih, lastOcc_cons, dictGet_insert]
      cases ho : lastOcc s k with
      | some a => simp
      | none =>
          simp only [Option.none_or]
          by_cases h : kv.1 = k
          · simp [h]
          · simp [h, Ne.symm h]

theorem hasKey_foldIns_of_hasKey {α : Type} (s : Dict α) (d : Dict α) (k : String)
    (h : hasKey d k = true) : hasKey (foldIns d s) k = true := by
  induction s generalizing d with
  | nil => exact h
  | cons kv s ih =>
      rw [foldIns_cons]
      exact ih _ (hasKey_insert_of_hasKey _ _ _ _ h)

theorem hasKey_foldIns_of_mem {α : Type} (s : Dict α) (d : Dict α) (kv : String × α)
    (h : kv ∈ s) : hasKey (foldIns d s) kv.1 = true := by
  induction s generalizing d with
  | nil => simp at h
  | cons kv2 s ih =>
      rw [foldIns_cons]
      rcases List.mem_cons.mp h with h | h
      · subst h
        exact hasKey_foldIns_of_hasKey _ _ _ (hasKey_insert_self _ _ _)
      · exact ih _ h

theorem keysOf_foldIns_of_all {α : Type} (s : Dict α) (d : Dict α)
    (h : ∀ kv ∈ s, hasKey d kv.1 = true) : keysOf (foldIns d s) = keysOf d := by
  induction s generalizing d with
  | nil => rfl
  | cons kv s ih =>
      rw [foldIns_cons]
      have h1 : hasKey d kv.1 = true := h kv (List.mem_cons_self _ _)
      have h2 : keysOf (dictInsert d kv.1 kv.2) = keysOf d := by
        rw [keysOf_insert, if_pos h1]
      have h3 : ∀ kv2 ∈ s, hasKey (dictInsert d kv.1 kv.2) kv2.1 = true := by
        intro kv2 hm
        exact hasKey_insert_of_hasKey _ _ _ _ (h kv2 (List.mem_cons_of_mem _ hm))
      rw [ih _ h3, h2]

theorem nodupKeys_foldIns {α : Type} (s : Dict α) (d : Dict α)
    (h : nodupKeys d) : nodupKeys (foldIns d s) := by
  induction s generalizing d with
  | nil => exact h
  | cons kv s ih =>
      rw [foldIns_cons]
      exact ih _ (nodupKeys_insert _ _ _ h)

theorem foldIns_rerun {α : Type} (d : Dict α) (s : Dict α) (hn : nodupKeys d) :
    foldIns (foldIns d s) s = foldIns d s := by
  apply dictExt
  · apply keysOf_foldIns_of_all
    intro kv hm
    exact hasKey_foldIns_of_mem s d kv hm
  · exact nodupKeys_foldIns s _ (nodupKeys_foldIns s d hn)
  · intro k
    rw [dictGet_foldIns, dictGet_foldIns]
    cases ho : lastOcc s k with
    | some a => simp
    | none => simp

theorem lastOcc_eq_get_of_nodup {α : Type} (s : Dict α) (k : String)
    (hn : nodupKeys s) : lastOcc s k = dictGet s k := by
  induction s with
  | nil => rfl
  | cons kv s ih =>
      have hn1 : nodupKeys s := by
        unfold nodupKeys at hn ⊢
        simpa [keysOf] using (List.nodup_cons.mp hn).2
      have hnotin : kv.1 ∉ keysOf s := by
        unfold nodupKeys at hn
        simpa [keysOf] using (List.nodup_cons.mp hn).1
      rw [lastOcc_cons, dictGet_cons, ih hn1]
      by_cases h : kv.1 = k
      · subst h
        have : dictGet s kv.1 = none := by
          cases hg : dictGet s kv.1 with
          | none => rfl
          | some v =>
              exact absurd ((hasKey_iff_mem s kv.1).mp (by simp [hasKey, hg])) hnotin
        simp [this]
      · simp [h]

theorem foldIns_self {α : Type} (d : Dict α) (hn : nodupKeys d) : foldIns d d = d := by
  apply dictExt
  · apply keysOf_foldIns_of_all
    intro kv hm
    rw [hasKey_iff_mem]
    exact List.mem_map.mpr ⟨kv, hm, rfl⟩
  · exact nodupKeys_foldIns d d hn
  · intro k
    rw [dictGet_foldIns, lastOcc_eq_get_of_nodup d k hn]
    cases hg : dictGet d k with
    | none => simp
    | some v => simp

-- ### Entity model
-- The entity classes live in modules outside the given source tree
-- (`orbiter/objects/*.py`); the fields used below are the identity keys and
-- payloads that `project.py` manipulates, per the spec (section 3).

/-- `OrbiterRequirement`: immutable hashable value, identity = all fields
(import names, module, package, optional system package). -/
structure OrbiterRequirement where
  names : List String
  module : String
  package : Option String
  sys_package : Option String
deriving DecidableEq

/-- `OrbiterConnection`: identity = `conn_id`. -/
structure OrbiterConnection where
  conn_id : String
  conn_type : String
deriving DecidableEq

/-- `OrbiterVariable`: identity = `key`. -/
structure OrbiterVariable where
  key : String
  value : String
deriving DecidableEq

/-- `OrbiterEnvVar`: identity = `key`. -/
structure OrbiterEnvVar where
  key : String
  value : String
deriving DecidableEq

/-- `OrbiterInclude`: identity = `filepath`. -/
structure OrbiterInclude where
  filepath : String
  contents : String
deriving DecidableEq

/-- `OrbiterPool`: identity = `name`. -/
structure OrbiterPool where
  name : String
  description : String
  slots : Nat
deriving DecidableEq

/-- Modelled from the spec: `OrbiterPool.__add__` (the merge used by
`add_pools` on a name collision) is not under `src/`.  The spec says pools
merge rather than overwrite; the in-source doctest of `add_pools`
(`project.py`, lines 400-408) pins the slot behaviour down: merging slots 1
with slots 2 yields slots 2, so the slot counts combine by maximum, not by
sum, and the incoming description wins when non-empty. -/
def OrbiterPool.merge (self other : OrbiterPool) : OrbiterPool :=
  { name := self.name
    description := if other.description = "" then self.description else other.description
    slots := max self.slots other.slots }

/-- The named entity-carrying attributes that the dependency walker probes
on each visited object (`orbiter_pool`, `orbiter_conns`, `orbiter_vars`,
`orbiter_env_vars`, `orbiter_includes`, `imports`).  An attribute that is
absent or falsy (Python `None` / empty collection) is `none` / `[]`. -/
structure EntitySets where
  orbiter_pool : Option OrbiterPool
  orbiter_conns : List OrbiterConnection
  orbiter_vars : List OrbiterVariable
  orbiter_env_vars : List OrbiterEnvVar
  orbiter_includes : List OrbiterInclude
  imports : List OrbiterRequirement

/-- An `EntitySets` with every attribute absent. -/
def noEntities : EntitySets := ⟨none, [], [], [], [], []⟩

/-- A node of the heterogeneous object graph that `_add_recursively`
traverses:
* `str`: a plain string — explicitly skipped by the walker;
* `container`: a plain Python `list` / `dict` / `set` / primitive — it has
  no `orbiter_*` attributes, is no `OrbiterTaskGroup`, and has no
  `__dict__` / `model_extra`, so the walker does nothing with it (its
  children are recorded here only so that reachability can be stated);
* `taskGroup`: an `OrbiterTaskGroup` — its probed attributes, its `tasks`
  list, and the remaining attribute values of its `__dict__`;
* `model`: any other pydantic model (operator, callback, timetable, ...) —
  its probed attributes and the values of its `__dict__` / `model_extra`.
-/
inductive Thing where
  | str : String → Thing
  | container : List Thing → Thing
  | taskGroup : EntitySets → List Thing → List Thing → Thing
  | model : EntitySets → List Thing → Thing

/-- `OrbiterDAG`: identity = `dag_id`.  `tasks` is the DAG's task dict;
`es` holds the DAG's own probed attributes (e.g. `orbiter_env_vars`,
`orbiter_includes`, `imports`); `dictFields` holds the remaining values of
the DAG's `__dict__` (e.g. its schedule object). -/
structure OrbiterDAG where
  dag_id : String
  file_path : String
  tasks : Dict Thing
  es : EntitySets
  dictFields : List Thing

/-- The DAG seen as a walker node: `_add_recursively([dag])` probes the
DAG's named attributes and then recurses into its `__dict__` values (the
`tasks` dict value itself is a plain container and is skipped there). -/
def dagToThing (dag : OrbiterDAG) : Thing :=
  Thing.model dag.es dag.dictFields

/-- Modelled from the spec: `OrbiterDAG.__add__` (the merge used by
`add_dags` on a `dag_id` collision) is not under `src/`.  Per the spec the
task graphs combine (the incoming tasks are written into the existing task
dict) and the remaining metadata of the incoming workflow wins. -/
def OrbiterDAG.merge (self other : OrbiterDAG) : OrbiterDAG :=
  { dag_id := self.dag_id
    file_path := other.file_path
    tasks := foldIns self.tasks other.tasks
    es := other.es
    dictFields := other.dictFields }

/-- Modelled from the spec: `OrbiterDAG.__str__` (the render-to-text
capability each entity supplies) is outside the given source tree and the
spec treats it as opaque; any fixed total function of the DAG works here. -/
def OrbiterDAG.render (dag : OrbiterDAG) : String :=
  dag.dag_id ++ "|" ++ dag.file_path ++ "|" ++ String.intercalate "," (keysOf dag.tasks)

/-- `OrbiterProject`: one collection per entity kind (dicts keyed by the
entity identity, and a set of requirements).  The field `vars` embeds the
source attribute `variables` (a reserved word in Lean). -/
structure OrbiterProject where
  dags : Dict OrbiterDAG
  requirements : List OrbiterRequirement
  pools : Dict OrbiterPool
  connections : Dict OrbiterConnection
  vars : Dict OrbiterVariable
  env_vars : Dict OrbiterEnvVar
  includes : Dict OrbiterInclude

/-- `OrbiterProject.__init__`: every collection starts empty. -/
def emptyProject : OrbiterProject := ⟨[], [], [], [], [], [], []⟩

-- ### The add-operations (`project.py` lines 128-528)

/-- `add_connections`: `self.connections[connection.conn_id] = connection`
for each connection in the batch. -/
def OrbiterProject.add_connections (p : OrbiterProject)
    (cs : List OrbiterConnection) : OrbiterProject :=
  cs.foldl (fun p c => { p with connections := dictInsert p.connections c.conn_id c }) p

/-- `add_variables`: `self.variables[variable.key] = variable`. -/
def OrbiterProject.add_variables (p : OrbiterProject)
    (vs : List OrbiterVariable) : OrbiterProject :=
  vs.foldl (fun p v => { p with vars := dictInsert p.vars v.key v }) p

/-- `add_env_vars`: `self.env_vars[env_var.key] = env_var`. -/
def OrbiterProject.add_env_vars (p : OrbiterProject)
    (es : List OrbiterEnvVar) : OrbiterProject :=
  es.foldl (fun p e => { p with env_vars := dictInsert p.env_vars e.key e }) p

/-- `add_includes`: `self.includes[include.filepath] = include`. -/
def OrbiterProject.add_includes (p : OrbiterProject)
    (is : List OrbiterInclude) : OrbiterProject :=
  is.foldl (fun p i => { p with includes := dictInsert p.includes i.filepath i }) p

/-- `add_requirements`: `self.requirements.add(requirement)` (set insert). -/
def OrbiterProject.add_requirements (p : OrbiterProject)
    (rs : List OrbiterRequirement) : OrbiterProject :=
  rs.foldl (fun p r => { p with requirements := setAdd p.requirements r }) p

/-- `add_pools`: merge into the existing pool on a name collision
(`self.pools[pool.name] += pool`), insert otherwise. -/
def OrbiterProject.add_pools (p : OrbiterProject)
    (ps : List OrbiterPool) : OrbiterProject :=
  ps.foldl (fun p pool =>
    match dictGet p.pools pool.name with
    | some old => { p with pools := dictInsert p.pools pool.name (old.merge pool) }
    | none => { p with pools := dictInsert p.pools pool.name pool }) p

/-- `if hasattr(thing, "orbiter_pool") and (pool := thing.orbiter_pool):
self.add_pools(pool)`. -/
def addPoolAttr (p : OrbiterProject) (es : EntitySets) : OrbiterProject :=
  match es.orbiter_pool with
  | some pool => p.add_pools [pool]
  | none => p

/-- `if hasattr(thing, "orbiter_conns") and (conns := thing.orbiter_conns):
self.add_connections(conns)`. -/
def addConnsAttr (p : OrbiterProject) (es : EntitySets) : OrbiterProject :=
  if es.orbiter_conns.isEmpty then p else p.add_connections es.orbiter_conns

/-- `if hasattr(thing, "orbiter_vars") and ...: self.add_variables(...)`. -/
def addVarsAttr (p : OrbiterProject) (es : EntitySets) : OrbiterProject :=
  if es.orbiter_vars.isEmpty then p else p.add_variables es.orbiter_vars

/-- `if hasattr(thing, "orbiter_env_vars") and ...: self.add_env_vars(...)`. -/
def addEnvVarsAttr (p : OrbiterProject) (es : EntitySets) : OrbiterProject :=
  if es.orbiter_env_vars.isEmpty then p else p.add_env_vars es.orbiter_env_vars

/-- `if hasattr(thing, "orbiter_includes") and ...: self.add_includes(...)`. -/
def addIncludesAttr (p : OrbiterProject) (es : EntitySets) : OrbiterProject :=
  if es.orbiter_includes.isEmpty then p else p.add_includes es.orbiter_includes

/-- `if hasattr(thing, "imports") and ...: self.add_requirements(...)`. -/
def addImportsAttr (p : OrbiterProject) (es : EntitySets) : OrbiterProject :=
  if es.imports.isEmpty then p else p.add_requirements es.imports

/-- One visited node's named-attribute adds, in source order (`pool`,
`conns`, `vars`, `env_vars`, `includes`, `imports`); each guarded by the
Python truthiness test of the attribute value. -/
def addEntitySets (p : OrbiterProject) (es : EntitySets) : OrbiterProject :=
  addImportsAttr (addIncludesAttr (addEnvVarsAttr (addVarsAttr (addConnsAttr
    (addPoolAttr p es) es) es) es) es) es

mutual

/-- One iteration of the `for thing in things` loop of `_add_recursively`
(`project.py` lines 256-293): skip strings, probe the named attributes,
recurse into a task group's `tasks`, then recurse into the node's
`__dict__` / `model_extra` values.  A plain container has none of these
and is skipped. -/
def walkThing : Thing → OrbiterProject → OrbiterProject
  | Thing.str _, p => p
  | Thing.container _, p => p
  | Thing.taskGroup es ts fs, p => addRecursively fs (addRecursively ts (addEntitySets p es))
  | Thing.model es fs, p => addRecursively fs (addEntitySets p es)

/-- `_add_recursively(things)`: fold `walkThing` over the iterable. -/
def addRecursively : List Thing → OrbiterProject → OrbiterProject
  | [], p => p
  | t :: ts, p => addRecursively ts (walkThing t p)

end

/-- `add_dags` (`project.py` lines 295-309): insert-or-merge each DAG by
`dag_id`, then run the dependency walker over the DAG's task values and
then over the DAG object itself. -/
def OrbiterProject.add_dags (p : OrbiterProject)
    (ds : List OrbiterDAG) : OrbiterProject :=
  ds.foldl (fun p dag =>
    let p1 : OrbiterProject :=
      match dictGet p.dags dag.dag_id with
      | some old => { p with dags := dictInsert p.dags dag.dag_id (old.merge dag) }
      | none => { p with dags := dictInsert p.dags dag.dag_id dag }
    let p2 := addRecursively (dag.tasks.map (fun kv => kv.2)) p1
    addRecursively [dagToThing dag] p2) p

-- ### Renderer (`project.py` lines 530-611)

/-- The package names of the requirements whose `package` is truthy
(`r.package for r in self.requirements if r.package`). -/
def pkgNames (p : OrbiterProject) : List String :=
  p.requirements.filterMap (fun r => match r.package with
    | some s => if s = "" then none else some s
    | none => none)

/-- The system-package names of the requirements whose `sys_package` is
truthy. -/
def sysPkgNames (p : OrbiterProject) : List String :=
  p.requirements.filterMap (fun r => match r.sys_package with
    | some s => if s = "" then none else some s
    | none => none)

/-- Python `sorted(set(l))` for strings. -/
def sortedDedup (l : List String) : List String :=
  List.insertionSort (fun a b => a ≤ b) l.dedup

/-- Modelled from the spec: `OrbiterPool.render` (per-entity record in the
settings document) is outside the given source tree; the spec treats the
per-entity serialization as opaque. -/
def OrbiterPool.render (pool : OrbiterPool) : String :=
  pool.name ++ ":" ++ pool.description ++ ":" ++ toString pool.slots

/-- Modelled from the spec: `OrbiterVariable.render` is outside the given
source tree. -/
def OrbiterVariable.render (v : OrbiterVariable) : String :=
  v.key ++ "=" ++ v.value

/-- Modelled from the spec: `OrbiterConnection.render` is outside the given
source tree. -/
def OrbiterConnection.render (c : OrbiterConnection) : String :=
  c.conn_id ++ ":" ++ c.conn_type

/-- Modelled from the spec: `OrbiterEnvVar.render` is a `KEY=VALUE` line
(spec section 6). -/
def OrbiterEnvVar.render (e : OrbiterEnvVar) : String :=
  e.key ++ "=" ++ e.value

/-- Modelled from the spec: `OrbiterInclude.render` emits the raw include
contents (spec section 6). -/
def OrbiterInclude.render (i : OrbiterInclude) : String :=
  i.contents

/-- Modelled from the spec: the settings document written by
`yaml.safe_dump` — a structured document with three named sections, each a
list of per-entity rendered records. -/
def settingsDoc (p : OrbiterProject) : String :=
  "airflow:pools:[" ++ String.intercalate "," (p.pools.map (fun kv => kv.2.render)) ++
  "];variables:[" ++ String.intercalate "," (p.vars.map (fun kv => kv.2.render)) ++
  "];connections:[" ++ String.intercalate "," (p.connections.map (fun kv => kv.2.render)) ++ "]"

/-- `render(output_dir)`: either the raised error (a `RuntimeError` with
message `"No DAGs to render!"` — the spec calls this `EmptyProjectError`)
or the list of `(relative path, content)` files written, in write order.
Directory creation is not modelled; each write is a pure pair. -/
def OrbiterProject.render (p : OrbiterProject) :
    Except String (List (String × String)) :=
  if p.dags.length = 0 then Except.error "No DAGs to render!"
  else
    let dagFiles := p.dags.map (fun kv => ("dags/" ++ kv.2.file_path, kv.2.render))
    let reqFiles := if (pkgNames p).isEmpty then [] else
      [("requirements.txt", String.intercalate "\n" (sortedDedup (pkgNames p)))]
    let sysFiles := if (sysPkgNames p).isEmpty then [] else
      [("packages.txt", String.intercalate "\n" (sortedDedup (sysPkgNames p)))]
    let settingsFiles :=
      if p.pools.isEmpty && p.vars.isEmpty && p.connections.isEmpty then []
      else [("airflow_settings.yaml", settingsDoc p)]
    let includeFiles := p.includes.map (fun kv => (kv.2.filepath, kv.2.render))
    let envFiles := if p.env_vars.isEmpty then [] else
      [(".env", String.intercalate "\n" (p.env_vars.map (fun kv => kv.2.render)))]
    Except.ok (dagFiles ++ reqFiles ++ sysFiles ++ settingsFiles ++ includeFiles ++ envFiles)

-- ### Structural equality (`__eq__`, `project.py` lines 106-115)

/-- Python `set` equality: same elements, order and multiplicity
irrelevant. -/
def setEqB {α : Type} [DecidableEq α] (a b : List α) : Bool :=
  a.all (fun x => decide (x ∈ b)) && b.all (fun x => decide (x ∈ a))

/-- Python `dict` equality: same key-value pairs, order irrelevant. -/
def dictEqB {α : Type} [DecidableEq α] (d1 d2 : Dict α) : Bool :=
  d1.all (fun kv => decide (dictGet d2 kv.1 = some kv.2)) &&
  d2.all (fun kv => decide (dictGet d1 kv.1 = some kv.2))

/-- One list comprehension `[str(self.dags[d]) == str(other.dags[d]) for d
in ks]`; `none` models the `KeyError` raised when a dag id is missing from
either side. -/
def dagChecks (self other : OrbiterProject) : List String → Option (List Bool)
  | [] => some []
  | d :: ds =>
      match dictGet self.dags d, dictGet other.dags d with
      | some a, some b =>
          (dagChecks self other ds).map (fun rest => decide (a.render = b.render) :: rest)
      | _, _ => none

/-- `__eq__`: workflows compared by rendered text over the ids of both
sides, requirements as a set, pools / connections / variables / env vars
as dicts by value — and `includes` not compared at all.  `none` models the
`KeyError` when a dag id is present on one side only. -/
def OrbiterProject.eq (self other : OrbiterProject) : Option Bool :=
  match dagChecks self other (keysOf self.dags),
        dagChecks self other (keysOf other.dags) with
  | some c1, some c2 =>
      some ((c1 ++ c2 ++
        [setEqB self.requirements other.requirements,
         dictEqB self.pools other.pools,
         dictEqB self.connections other.connections,
         dictEqB self.vars other.vars,
         dictEqB self.env_vars other.env_vars]).all (fun b => b))
  | _, _ => none

-- ### Project combination (`__add__`, `project.py` lines 92-104)

/-- The right operand of `project + x`: Python `None`/falsy, another
project (projects are always truthy), or some other truthy value. -/
inductive PyOperand where
  | falsy : PyOperand
  | proj : OrbiterProject → PyOperand
  | other : PyOperand

/-- `__add__`: a falsy operand returns the left project unchanged, a
truthy non-project raises `TypeError`, and another project is folded in
via every per-kind add-operation in source order. -/
def OrbiterProject.addOp (p : OrbiterProject) : PyOperand → Except String OrbiterProject
  | PyOperand.falsy => Except.ok p
  | PyOperand.other => Except.error "TypeError"
  | PyOperand.proj q =>
      Except.ok (((((((p.add_dags (q.dags.map (fun kv => kv.2))).add_requirements
        q.requirements).add_pools (q.pools.map (fun kv => kv.2))).add_connections
        (q.connections.map (fun kv => kv.2))).add_variables
        (q.vars.map (fun kv => kv.2))).add_env_vars
        (q.env_vars.map (fun kv => kv.2))).add_includes
        (q.includes.map (fun kv => kv.2)))

-- ### validate_call wrappers (`project.py` lines 709-715)

/-- A runtime value handed to an add-operation: one of the entity kinds, or
something else entirely (e.g. a string). -/
inductive PyVal where
  | conn : OrbiterConnection → PyVal
  | dag : OrbiterDAG → PyVal
  | env : OrbiterEnvVar → PyVal
  | inc : OrbiterInclude → PyVal
  | pool : OrbiterPool → PyVal
  | req : OrbiterRequirement → PyVal
  | var : OrbiterVariable → PyVal
  | str : String → PyVal

/-- The argument of an add-operation: a single value or a sequence. -/
inductive PyArg where
  | single : PyVal → PyArg
  | seq : List PyVal → PyArg

/-- Validate a whole sequence: all values of the expected kind, or fail. -/
def extractAll {α : Type} (ex : PyVal → Option α) : List PyVal → Option (List α)
  | [] => some []
  | v :: vs =>
      match ex v, extractAll ex vs with
      | some a, some as => some (a :: as)
      | _, _ => none

/-- Modelled from the spec: the pydantic `validate_call` wrapper applied to
every add-operation (`project.py` lines 709-715) validates the whole
argument against `Kind | Iterable[Kind]` before the function body runs, so
a wrong-kind value anywhere in the argument fails with `ValidationError`
before any mutation (spec section 4.3). -/
def validatedAdd {α : Type} (ex : PyVal → Option α)
    (app : OrbiterProject → List α → OrbiterProject)
    (p : OrbiterProject) : PyArg → Except String OrbiterProject
  | PyArg.single v =>
      match ex v with
      | some a => Except.ok (app p [a])
      | none => Except.error "ValidationError"
  | PyArg.seq vs =>
      match extractAll ex vs with
      | some as => Except.ok (app p as)
      | none => Except.error "ValidationError"

/-- Does the argument contain a value the extractor rejects? -/
def hasWrongKind {α : Type} (ex : PyVal → Option α) : PyArg → Bool
  | PyArg.single v => (ex v).isNone
  | PyArg.seq vs => vs.any (fun v => (ex v).isNone)

def asConn : PyVal → Option OrbiterConnection
  | PyVal.conn c => some c
  | _ => none

def asDag : PyVal → Option OrbiterDAG
  | PyVal.dag d => some d
  | _ => none

def asEnv : PyVal → Option OrbiterEnvVar
  | PyVal.env e => some e
  | _ => none

def asInc : PyVal → Option OrbiterInclude
  | PyVal.inc i => some i
  | _ => none

def asPool : PyVal → Option OrbiterPool
  | PyVal.pool pl => some pl
  | _ => none

def asReq : PyVal → Option OrbiterRequirement
  | PyVal.req r => some r
  | _ => none

def asVar : PyVal → Option OrbiterVariable
  | PyVal.var v => some v
  | _ => none

-- ### Fueled walker (for the termination claim)

mutual

/-- The nesting depth of a node: how many recursive `_add_recursively`
frames the walker needs below it. -/
def depthThing : Thing → Nat
  | Thing.str _ => 1
  | Thing.container _ => 1
  | Thing.taskGroup _ ts fs => max (depthList ts) (depthList fs) + 1
  | Thing.model _ fs => depthList fs + 1

/-- The depth of an iterable of nodes (siblings share one frame). -/
def depthList : List Thing → Nat
  | [] => 0
  | t :: ts => max (depthThing t) (depthList ts)

end

mutual

/-- `walkThing` with an explicit recursion-depth budget; `none` models the
host interpreter's recursion-limit error (the source installs no cap of
its own). -/
def walkThingF : Nat → Thing → OrbiterProject → Option OrbiterProject
  | 0, _, _ => none
  | _ + 1, Thing.str _, p => some p
  | _ + 1, Thing.container _, p => some p
  | f + 1, Thing.taskGroup es ts fs, p =>
      match addRecursivelyF f ts (addEntitySets p es) with
      | some q => addRecursivelyF f fs q
      | none => none
  | f + 1, Thing.model es fs, p => addRecursivelyF f fs (addEntitySets p es)

/-- `addRecursively` with an explicit recursion-depth budget. -/
def addRecursivelyF : Nat → List Thing → OrbiterProject → Option OrbiterProject
  | _, [], p => some p
  | f, t :: ts, p =>
      match walkThingF f t p with
      | some q => addRecursivelyF f ts q
      | none => none

end

-- ### Entities reachable by the walker, and entities reachable at all

/-- A bag of discovered entities, one list per kind. -/
structure Found where
  pools : List OrbiterPool
  conns : List OrbiterConnection
  vars : List OrbiterVariable
  envs : List OrbiterEnvVar
  incs : List OrbiterInclude
  reqs : List OrbiterRequirement

def Found.app (a b : Found) : Found :=
  ⟨a.pools ++ b.pools, a.conns ++ b.conns, a.vars ++ b.vars,
   a.envs ++ b.envs, a.incs ++ b.incs, a.reqs ++ b.reqs⟩

def Found.nil : Found := ⟨[], [], [], [], [], []⟩

/-- The entities carried by one node's probed attributes. -/
def EntitySets.found (es : EntitySets) : Found :=
  ⟨(match es.orbiter_pool with | some pool => [pool] | none => []),
   es.orbiter_conns, es.orbiter_vars, es.orbiter_env_vars,
   es.orbiter_includes, es.imports⟩

mutual

/-- The entities the walker actually visits below a node (matching the
traversal of `_add_recursively`: named attributes, task-group tasks, and
model fields — not the children of plain containers). -/
def foundThing : Thing → Found
  | Thing.str _ => Found.nil
  | Thing.container _ => Found.nil
  | Thing.taskGroup es ts fs => (es.found.app (foundList ts)).app (foundList fs)
  | Thing.model es fs => es.found.app (foundList fs)

def foundList : List Thing → Found
  | [] => Found.nil
  | t :: ts => (foundThing t).app (foundList ts)

end

mutual

/-- Every entity reachable anywhere below a node, at arbitrary nesting
depth — the spec's notion of reachability (spec section 3 invariant),
which also descends into plain containers. -/
def specFoundThing : Thing → Found
  | Thing.str _ => Found.nil
  | Thing.container xs => specFoundList xs
  | Thing.taskGroup es ts fs => (es.found.app (specFoundList ts)).app (specFoundList fs)
  | Thing.model es fs => es.found.app (specFoundList fs)

def specFoundList : List Thing → Found
  | [] => Found.nil
  | t :: ts => (specFoundThing t).app (specFoundList ts)

end

/-- The walker-visited entities of a whole DAG as `add_dags` walks it: the
task values first, then the DAG object itself. -/
def dagFound (dag : OrbiterDAG) : Found :=
  (foundList (dag.tasks.map (fun kv => kv.2))).app (foundThing (dagToThing dag))

/-- The spec-reachable entities of a whole DAG. -/
def dagSpecFound (dag : OrbiterDAG) : Found :=
  (specFoundList (dag.tasks.map (fun kv => kv.2))).app (specFoundThing (dagToThing dag))

-- ### Well-formedness: the state every real `OrbiterProject` satisfies

/-- Python dicts cannot repeat a key and a Python set cannot repeat an
element. -/
def WFproj (p : OrbiterProject) : Prop :=
  nodupKeys p.dags ∧ p.requirements.Nodup ∧ nodupKeys p.pools ∧
  nodupKeys p.connections ∧ nodupKeys p.vars ∧ nodupKeys p.env_vars ∧
  nodupKeys p.includes

instance (p : OrbiterProject) : Decidable (WFproj p) := by
  unfold WFproj; infer_instance

-- ### Monotonicity: add-operations never drop keys or requirements

/-- `q` keeps every key and requirement that `p` has. -/
def Mono (p q : OrbiterProject) : Prop :=
  (∀ k, hasKey p.dags k = true → hasKey q.dags k = true) ∧
  (∀ k, hasKey p.pools k = true → hasKey q.pools k = true) ∧
  (∀ k, hasKey p.connections k = true → hasKey q.connections k = true) ∧
  (∀ k, hasKey p.vars k = true → hasKey q.vars k = true) ∧
  (∀ k, hasKey p.env_vars k = true → hasKey q.env_vars k = true) ∧
  (∀ k, hasKey p.includes k = true → hasKey q.includes k = true) ∧
  (∀ r, r ∈ p.requirements → r ∈ q.requirements)

theorem mono_refl (p : OrbiterProject) : Mono p p :=
  ⟨fun _ h => h, fun _ h => h, fun _ h => h, fun _ h => h, fun _ h => h,
   fun _ h => h, fun _ h => h⟩

theorem mono_trans {p q r : OrbiterProject} (h1 : Mono p q) (h2 : Mono q r) :
    Mono p r :=
  ⟨fun k h => h2.1 k (h1.1 k h),
   fun k h => h2.2.1 k (h1.2.1 k h),
   fun k h => h2.2.2.1 k (h1.2.2.1 k h),
   fun k h => h2.2.2.2.1 k (h1.2.2.2.1 k h),
   fun k h => h2.2.2.2.2.1 k (h1.2.2.2.2.1 k h),
   fun k h => h2.2.2.2.2.2.1 k (h1.2.2.2.2.2.1 k h),
   fun r h => h2.2.2.2.2.2.2 r (h1.2.2.2.2.2.2 r h)⟩

theorem mono_foldl {β : Type} (step : OrbiterProject → β → OrbiterProject)
    (h : ∀ p x, Mono p (step p x)) : ∀ (l : List β) (p : OrbiterProject),
    Mono p (l.foldl step p)
  | [], p => mono_refl p
  | x :: l, p => mono_trans (h p x) (mono_foldl step h l (step p x))

theorem mem_setAdd_of_mem {α : Type} [DecidableEq α] (s : List α) (x y : α)
    (h : y ∈ s) : y ∈ setAdd s x := by
  unfold setAdd
  by_cases hx : x ∈ s
  · simpa [hx] using h
  · simp [hx, List.mem_append]
    exact Or.inl h

theorem mem_setAdd_self {α : Type} [DecidableEq α] (s : List α) (x : α) :
    x ∈ setAdd s x := by
  unfold setAdd
  by_cases hx : x ∈ s
  · simp [hx]
  · simp [hx]

theorem setAdd_nodup {α : Type} [DecidableEq α] (s : List α) (x : α)
    (h : s.Nodup) : (setAdd s x).Nodup := by
  unfold setAdd
  by_cases hx : x ∈ s
  · simpa [hx] using h
  · rw [if_neg hx]
    simp [List.nodup_append, h, hx]

theorem add_connections_mono (cs : List OrbiterConnection) (p : OrbiterProject) :
    Mono p (p.add_connections cs) := by
  apply mono_foldl
  intro p c
  exact ⟨fun _ h => h, fun _ h => h,
    fun k h => hasKey_insert_of_hasKey _ _ _ _ h,
    fun _ h => h, fun _ h => h, fun _ h => h, fun _ h => h⟩

theorem add_variables_mono (vs : List OrbiterVariable) (p : OrbiterProject) :
    Mono p (p.add_variables vs) := by
  apply mono_foldl
  intro p v
  exact ⟨fun _ h => h, fun _ h => h, fun _ h => h,
    fun k h => hasKey_insert_of_hasKey _ _ _ _ h,
    fun _ h => h, fun _ h => h, fun _ h => h⟩

theorem add_env_vars_mono (es : List OrbiterEnvVar) (p : OrbiterProject) :
    Mono p (p.add_env_vars es) := by
  apply mono_foldl
  intro p e
  exact ⟨fun _ h => h, fun _ h => h, fun _ h => h, fun _ h => h,
    fun k h => hasKey_insert_of_hasKey _ _ _ _ h,
    fun _ h => h, fun _ h => h⟩

theorem add_includes_mono (is : List OrbiterInclude) (p : OrbiterProject) :
    Mono p (p.add_includes is) := by
  apply mono_foldl
  intro p i
  exact ⟨fun _ h => h, fun _ h => h, fun _ h => h, fun _ h => h, fun _ h => h,
    fun k h => hasKey_insert_of_hasKey _ _ _ _ h,
    fun _ h => h⟩

theorem add_requirements_mono (rs : List OrbiterRequirement) (p : OrbiterProject) :
    Mono p (p.add_requirements rs) := by
  apply mono_foldl
  intro p r
  exact ⟨fun _ h => h, fun _ h => h, fun _ h => h, fun _ h => h, fun _ h => h,
    fun _ h => h, fun x h => mem_setAdd_of_mem _ _ _ h⟩

theorem add_pools_mono (ps : List OrbiterPool) (p : OrbiterProject) :
    Mono p (p.add_pools ps) := by
  apply mono_foldl
  intro p pool
  cases hg : dictGet p.pools pool.name with
  | some old =>
      refine ⟨fun _ h => h, ?_, fun _ h => h, fun _ h => h, fun _ h => h,
        fun _ h => h, fun _ h => h⟩
      intro k h
      show hasKey (dictInsert p.pools pool.name (old.merge pool)) k = true
      exact hasKey_insert_of_hasKey _ _ _ _ h
  | none =>
      refine ⟨fun _ h => h, ?_, fun _ h => h, fun _ h => h, fun _ h => h,
        fun _ h => h, fun _ h => h⟩
      intro k h
      show hasKey (dictInsert p.pools pool.name pool) k = true
      exact hasKey_insert_of_hasKey _ _ _ _ h

theorem addPoolAttr_mono (p : OrbiterProject) (es : EntitySets) :
    Mono p (addPoolAttr p es) := by
  unfold addPoolAttr
  cases es.orbiter_pool with
  | some pool => exact add_pools_mono [pool] p
  | none => exact mono_refl p

theorem addConnsAttr_mono (p : OrbiterProject) (es : EntitySets) :
    Mono p (addConnsAttr p es) := by
  unfold addConnsAttr
  by_cases h : es.orbiter_conns.isEmpty
  · simpa [h] using mono_refl p
  · simpa [h] using add_connections_mono es.orbiter_conns p

theorem addVarsAttr_mono (p : OrbiterProject) (es : EntitySets) :
    Mono p (addVarsAttr p es) := by
  unfold addVarsAttr
  by_cases h : es.orbiter_vars.isEmpty
  · simpa [h] using mono_refl p
  · simpa [h] using add_variables_mono es.orbiter_vars p

theorem addEnvVarsAttr_mono (p : OrbiterProject) (es : EntitySets) :
    Mono p (addEnvVarsAttr p es) := by
  unfold addEnvVarsAttr
  by_cases h : es.orbiter_env_vars.isEmpty
  · simpa [h] using mono_refl p
  · simpa [h] using add_env_vars_mono es.orbiter_env_vars p

theorem addIncludesAttr_mono (p : OrbiterProject) (es : EntitySets) :
    Mono p (addIncludesAttr p es) := by
  unfold addIncludesAttr
  by_cases h : es.orbiter_includes.isEmpty
  · simpa [h] using mono_refl p
  · simpa [h] using add_includes_mono es.orbiter_includes p

theorem addImportsAttr_mono (p : OrbiterProject) (es : EntitySets) :
    Mono p (addImportsAttr p es) := by
  unfold addImportsAttr
  by_cases h : es.imports.isEmpty
  · simpa [h] using mono_refl p
  · simpa [h] using add_requirements_mono es.imports p

theorem addEntitySets_mono (p : OrbiterProject) (es : EntitySets) :
    Mono p (addEntitySets p es) :=
  mono_trans (addPoolAttr_mono p es)
    (mono_trans (addConnsAttr_mono _ es)
      (mono_trans (addVarsAttr_mono _ es)
        (mono_trans (addEnvVarsAttr_mono _ es)
          (mono_trans (addIncludesAttr_mono _ es) (addImportsAttr_mono _ es)))))

mutual

theorem walkThing_mono : (t : Thing) → (p : OrbiterProject) → Mono p (walkThing t p)
  | Thing.str _, p => mono_refl p
  | Thing.container _, p => mono_refl p
  | Thing.taskGroup es ts fs, p =>
      mono_trans (addEntitySets_mono p es)
        (mono_trans (addRecursively_mono ts (addEntitySets p es))
          (addRecursively_mono fs (addRecursively ts (addEntitySets p es))))
  | Thing.model es fs, p =>
      mono_trans (addEntitySets_mono p es) (addRecursively_mono fs (addEntitySets p es))

theorem addRecursively_mono : (ts : List Thing) → (p : OrbiterProject) →
    Mono p (addRecursively ts p)
  | [], p => mono_refl p
  | t :: ts, p => mono_trans (walkThing_mono t p) (addRecursively_mono ts (walkThing t p))

end

theorem add_dags_mono (ds : List OrbiterDAG) (p : OrbiterProject) :
    Mono p (p.add_dags ds) := by
  apply mono_foldl
  intro p dag
  have h1 : Mono p (match dictGet p.dags dag.dag_id with
      | some old => { p with dags := dictInsert p.dags dag.dag_id (old.merge dag) }
      | none => { p with dags := dictInsert p.dags dag.dag_id dag }) := by
    cases hg : dictGet p.dags dag.dag_id with
    | some old =>
        exact ⟨fun k h => hasKey_insert_of_hasKey _ _ _ _ h, fun _ h => h, fun _ h => h,
          fun _ h => h, fun _ h => h, fun _ h => h, fun _ h => h⟩
    | none =>
        exact ⟨fun k h => hasKey_insert_of_hasKey _ _ _ _ h, fun _ h => h, fun _ h => h,
          fun _ h => h, fun _ h => h, fun _ h => h, fun _ h => h⟩
  exact mono_trans h1 (mono_trans (addRecursively_mono _ _) (addRecursively_mono _ _))

-- ### Adequacy: every entity in a batch ends up under its key

theorem add_connections_has : ∀ (cs : List OrbiterConnection) (p : OrbiterProject)
    (c : OrbiterConnection), c ∈ cs →
    hasKey (p.add_connections cs).connections c.conn_id = true
  | c2 :: cs, p, c, hm => by
      rcases List.mem_cons.mp hm with h | h
      · subst h
        exact (add_connections_mono cs _).2.2.1 _ (hasKey_insert_self p.connections _ _)
      · exact add_connections_has cs _ c h

theorem add_variables_has : ∀ (vs : List OrbiterVariable) (p : OrbiterProject)
    (v : OrbiterVariable), v ∈ vs → hasKey (p.add_variables vs).vars v.key = true
  | v2 :: vs, p, v, hm => by
      rcases List.mem_cons.mp hm with h | h
      · subst h
        exact (add_variables_mono vs _).2.2.2.1 _ (hasKey_insert_self p.vars _ _)
      · exact add_variables_has vs _ v h

theorem add_env_vars_has : ∀ (es : List OrbiterEnvVar) (p : OrbiterProject)
    (e : OrbiterEnvVar), e ∈ es → hasKey (p.add_env_vars es).env_vars e.key = true
  | e2 :: es, p, e, hm => by
      rcases List.mem_cons.mp hm with h | h
      · subst h
        exact (add_env_vars_mono es _).2.2.2.2.1 _ (hasKey_insert_self p.env_vars _ _)
      · exact add_env_vars_has es _ e h

theorem add_includes_has : ∀ (is : List OrbiterInclude) (p : OrbiterProject)
    (i : OrbiterInclude), i ∈ is →
    hasKey (p.add_includes is).includes i.filepath = true
  | i2 :: is, p, i, hm => by
      rcases List.mem_cons.mp hm with h | h
      · subst h
        exact (add_includes_mono is _).2.2.2.2.2.1 _ (hasKey_insert_self p.includes _ _)
      · exact add_includes_has is _ i h

theorem add_requirements_has : ∀ (rs : List OrbiterRequirement) (p : OrbiterProject)
    (r : OrbiterRequirement), r ∈ rs → r ∈ (p.add_requirements rs).requirements
  | r2 :: rs, p, r, hm => by
      rcases List.mem_cons.mp hm with h | h
      · subst h
        exact (add_requirements_mono rs _).2.2.2.2.2.2 _ (mem_setAdd_self p.requirements r)
      · exact add_requirements_has rs _ r h

theorem add_pools_has : ∀ (ps : List OrbiterPool) (p : OrbiterProject)
    (pool : OrbiterPool), pool ∈ ps → hasKey (p.add_pools ps).pools pool.name = true
  | p2 :: ps, p, pool, hm => by
      rcases List.mem_cons.mp hm with h | h
      · subst h
        have hstep : ∀ q : OrbiterProject,
            hasKey ((match dictGet p.pools pool.name with
              | some old => { p with pools := dictInsert p.pools pool.name (old.merge pool) }
              | none =>
                  { p with pools := dictInsert p.pools pool.name pool } :
                OrbiterProject)).pools pool.name = true := by
          intro q
          cases hg : dictGet p.pools pool.name with
          | some old => exact hasKey_insert_self p.pools _ _
          | none => exact hasKey_insert_self p.pools _ _
        exact (add_pools_mono ps _).2.1 _ (hstep p)
      · exact add_pools_has ps _ pool h

theorem add_dags_has : ∀ (ds : List OrbiterDAG) (p : OrbiterProject)
    (dag : OrbiterDAG), dag ∈ ds → hasKey (p.add_dags ds).dags dag.dag_id = true
  | d2 :: ds, p, dag, hm => by
      rcases List.mem_cons.mp hm with h | h
      · subst h
        have h1 : hasKey ((match dictGet p.dags dag.dag_id with
            | some old => { p with dags := dictInsert p.dags dag.dag_id (old.merge dag) }
            | none => { p with dags := dictInsert p.dags dag.dag_id dag } :
              OrbiterProject)).dags dag.dag_id = true := by
          cases hg : dictGet p.dags dag.dag_id with
          | some old => exact hasKey_insert_self p.dags _ _
          | none => exact hasKey_insert_self p.dags _ _
        exact (add_dags_mono ds _).1 _
          ((addRecursively_mono _ _).1 _ ((addRecursively_mono _ _).1 _ h1))
      · exact add_dags_has ds _ dag h

-- ### AllIn: a bag of discovered entities is present in a project

def AllIn (f : Found) (p : OrbiterProject) : Prop :=
  (∀ x ∈ f.pools, hasKey p.pools x.name = true) ∧
  (∀ x ∈ f.conns, hasKey p.connections x.conn_id = true) ∧
  (∀ x ∈ f.vars, hasKey p.vars x.key = true) ∧
  (∀ x ∈ f.envs, hasKey p.env_vars x.key = true) ∧
  (∀ x ∈ f.incs, hasKey p.includes x.filepath = true) ∧
  (∀ x ∈ f.reqs, x ∈ p.requirements)

theorem allIn_nil (p : OrbiterProject) : AllIn Found.nil p := by
  refine ⟨?_, ?_, ?_, ?_, ?_, ?_⟩ <;> intro x hx <;> simp [Found.nil] at hx

theorem allIn_mono {f : Found} {p q : OrbiterProject} (h : AllIn f p)
    (hm : Mono p q) : AllIn f q :=
  ⟨fun x hx => hm.2.1 _ (h.1 x hx),
   fun x hx => hm.2.2.1 _ (h.2.1 x hx),
   fun x hx => hm.2.2.2.1 _ (h.2.2.1 x hx),
   fun x hx => hm.2.2.2.2.1 _ (h.2.2.2.1 x hx),
   fun x hx => hm.2.2.2.2.2.1 _ (h.2.2.2.2.1 x hx),
   fun x hx => hm.2.2.2.2.2.2 _ (h.2.2.2.2.2 x hx)⟩

theorem allIn_app {a b : Found} {p : OrbiterProject} (ha : AllIn a p)
    (hb : AllIn b p) : AllIn (a.app b) p := by
  refine ⟨?_, ?_, ?_, ?_, ?_, ?_⟩ <;> intro x hx <;>
    simp only [Found.app, List.mem_append] at hx
  · exact hx.elim (ha.1 x) (hb.1 x)
  · exact hx.elim (ha.2.1 x) (hb.2.1 x)
  · exact hx.elim (ha.2.2.1 x) (hb.2.2.1 x)
  · exact hx.elim (ha.2.2.2.1 x) (hb.2.2.2.1 x)
  · exact hx.elim (ha.2.2.2.2.1 x) (hb.2.2.2.2.1 x)
  · exact hx.elim (ha.2.2.2.2.2 x) (hb.2.2.2.2.2 x)

theorem addEntitySets_allIn (p : OrbiterProject) (es : EntitySets) :
    AllIn es.found (addEntitySets p es) := by
  have hpool : ∀ x ∈ es.found.pools, hasKey (addPoolAttr p es).pools x.name = true := by
    intro x hx
    unfold EntitySets.found at hx
    unfold addPoolAttr
    cases hp : es.orbiter_pool with
    | some pool =>
        simp only [hp] at hx
        simp only [List.mem_singleton] at hx
        subst hx
        exact add_pools_has [x] p x (List.mem_singleton.mpr rfl)
    | none => simp [hp] at hx
  have hconn : ∀ x ∈ es.found.conns,
      hasKey (addConnsAttr (addPoolAttr p es) es).connections x.conn_id = true := by
    intro x hx
    unfold EntitySets.found at hx
    unfold addConnsAttr
    have hne : ¬ es.orbiter_conns.isEmpty = true := by
      intro he
      rw [List.isEmpty_iff.mp he] at hx
      simp at hx
    rw [if_neg hne]
    exact add_connections_has _ _ x hx
  have hvar : ∀ x ∈ es.found.vars,
      hasKey (addVarsAttr (addConnsAttr (addPoolAttr p es) es) es).vars x.key = true := by
    intro x hx
    unfold EntitySets.found at hx
    unfold addVarsAttr
    have hne : ¬ es.orbiter_vars.isEmpty = true := by
      intro he
      rw [List.isEmpty_iff.mp he] at hx
      simp at hx
    rw [if_neg hne]
    exact add_variables_has _ _ x hx
  have henv : ∀ x ∈ es.found.envs,
      hasKey (addEnvVarsAttr (addVarsAttr (addConnsAttr (addPoolAttr p es) es) es)
        es).env_vars x.key = true := by
    intro x hx
    unfold EntitySets.found at hx
    unfold addEnvVarsAttr
    have hne : ¬ es.orbiter_env_vars.isEmpty = true := by
      intro he
      rw [List.isEmpty_iff.mp he] at hx
      simp at hx
    rw [if_neg hne]
    exact add_env_vars_has _ _ x hx
  have hinc : ∀ x ∈ es.found.incs,
      hasKey (addIncludesAttr (addEnvVarsAttr (addVarsAttr (addConnsAttr
        (addPoolAttr p es) es) es) es) es).includes x.filepath = true := by
    intro x hx
    unfold EntitySets.found at hx
    unfold addIncludesAttr
    have hne : ¬ es.orbiter_includes.isEmpty = true := by
      intro he
      rw [List.isEmpty_iff.mp he] at hx
      simp at hx
    rw [if_neg hne]
    exact add_includes_has _ _ x hx
  have hreq : ∀ x ∈ es.found.reqs, x ∈ (addEntitySets p es).requirements := by
    intro x hx
    unfold EntitySets.found at hx
    unfold addEntitySets addImportsAttr
    have hne : ¬ es.imports.isEmpty = true := by
      intro he
      rw [List.isEmpty_iff.mp he] at hx
      simp at hx
    rw [if_neg hne]
    exact add_requirements_has _ _ x hx
  refine ⟨?_, ?_, ?_, ?_, ?_, hreq⟩
  · intro x hx
    have h1 := hpool x hx
    exact (mono_trans (addConnsAttr_mono _ es)
      (mono_trans (addVarsAttr_mono _ es)
        (mono_trans (addEnvVarsAttr_mono _ es)
          (mono_trans (addIncludesAttr_mono _ es) (addImportsAttr_mono _ es))))).2.1 _ h1
  · intro x hx
    have h1 := hconn x hx
    exact (mono_trans (addVarsAttr_mono _ es)
      (mono_trans (addEnvVarsAttr_mono _ es)
        (mono_trans (addIncludesAttr_mono _ es) (addImportsAttr_mono _ es)))).2.2.1 _ h1
  · intro x hx
    have h1 := hvar x hx
    exact (mono_trans (addEnvVarsAttr_mono _ es)
      (mono_trans (addIncludesAttr_mono _ es) (addImportsAttr_mono _ es))).2.2.2.1 _ h1
  · intro x hx
    have h1 := henv x hx
    exact (mono_trans (addIncludesAttr_mono _ es)
      (addImportsAttr_mono _ es)).2.2.2.2.1 _ h1
  · intro x hx
    have h1 := hinc x hx
    exact (addImportsAttr_mono _ es).2.2.2.2.2.1 _ h1

mutual

theorem walkThing_allIn : (t : Thing) → (p : OrbiterProject) →
    AllIn (foundThing t) (walkThing t p)
  | Thing.str _, p => allIn_nil p
  | Thing.container _, p => allIn_nil p
  | Thing.taskGroup es ts fs, p =>
      allIn_app
        (allIn_app
          (allIn_mono (addEntitySets_allIn p es)
            (mono_trans (addRecursively_mono ts (addEntitySets p es))
              (addRecursively_mono fs (addRecursively ts (addEntitySets p es)))))
          (allIn_mono (addRecursively_allIn ts (addEntitySets p es))
            (addRecursively_mono fs (addRecursively ts (addEntitySets p es)))))
        (addRecursively_allIn fs (addRecursively ts (addEntitySets p es)))
  | Thing.model es fs, p =>
      allIn_app
        (allIn_mono (addEntitySets_allIn p es)
          (addRecursively_mono fs (addEntitySets p es)))
        (addRecursively_allIn fs (addEntitySets p es))

theorem addRecursively_allIn : (ts : List Thing) → (p : OrbiterProject) →
    AllIn (foundList ts) (addRecursively ts p)
  | [], p => allIn_nil p
  | t :: ts, p =>
      allIn_app
        (allIn_mono (walkThing_allIn t p) (addRecursively_mono ts (walkThing t p)))
        (addRecursively_allIn ts (walkThing t p))

end

-- ### Well-formedness is preserved by every operation

theorem wf_foldl {β : Type} (step : OrbiterProject → β → OrbiterProject)
    (h : ∀ p x, WFproj p → WFproj (step p x)) : ∀ (l : List β) (p : OrbiterProject),
    WFproj p → WFproj (l.foldl step p)
  | [], _, hp => hp
  | x :: l, p, hp => wf_foldl step h l (step p x) (h p x hp)

theorem add_connections_wf (cs : List OrbiterConnection) (p : OrbiterProject)
    (h : WFproj p) : WFproj (p.add_connections cs) := by
  apply wf_foldl _ _ cs p h
  intro p c hp
  exact ⟨hp.1, hp.2.1, hp.2.2.1, nodupKeys_insert _ _ _ hp.2.2.2.1,
    hp.2.2.2.2.1, hp.2.2.2.2.2.1, hp.2.2.2.2.2.2⟩

theorem add_variables_wf (vs : List OrbiterVariable) (p : OrbiterProject)
    (h : WFproj p) : WFproj (p.add_variables vs) := by
  apply wf_foldl _ _ vs p h
  intro p v hp
  exact ⟨hp.1, hp.2.1, hp.2.2.1, hp.2.2.2.1, nodupKeys_insert _ _ _ hp.2.2.2.2.1,
    hp.2.2.2.2.2.1, hp.2.2.2.2.2.2⟩

theorem add_env_vars_wf (es : List OrbiterEnvVar) (p : OrbiterProject)
    (h : WFproj p) : WFproj (p.add_env_vars es) := by
  apply wf_foldl _ _ es p h
  intro p e hp
  exact ⟨hp.1, hp.2.1, hp.2.2.1, hp.2.2.2.1, hp.2.2.2.2.1,
    nodupKeys_insert _ _ _ hp.2.2.2.2.2.1, hp.2.2.2.2.2.2⟩

theorem add_includes_wf (is : List OrbiterInclude) (p : OrbiterProject)
    (h : WFproj p) : WFproj (p.add_includes is) := by
  apply wf_foldl _ _ is p h
  intro p i hp
  exact ⟨hp.1, hp.2.1, hp.2.2.1, hp.2.2.2.1, hp.2.2.2.2.1, hp.2.2.2.2.2.1,
    nodupKeys_insert _ _ _ hp.2.2.2.2.2.2⟩

theorem add_requirements_wf (rs : List OrbiterRequirement) (p : OrbiterProject)
    (h : WFproj p) : WFproj (p.add_requirements rs) := by
  apply wf_foldl _ _ rs p h
  intro p r hp
  exact ⟨hp.1, setAdd_nodup _ _ hp.2.1, hp.2.2.1, hp.2.2.2.1, hp.2.2.2.2.1,
    hp.2.2.2.2.2.1, hp.2.2.2.2.2.2⟩

theorem add_pools_wf (ps : List OrbiterPool) (p : OrbiterProject)
    (h : WFproj p) : WFproj (p.add_pools ps) := by
  apply wf_foldl _ _ ps p h
  intro p pool hp
  cases hg : dictGet p.pools pool.name with
  | some old =>
      exact ⟨hp.1, hp.2.1, nodupKeys_insert _ _ _ hp.2.2.1, hp.2.2.2.1,
        hp.2.2.2.2.1, hp.2.2.2.2.2.1, hp.2.2.2.2.2.2⟩
  | none =>
      exact ⟨hp.1, hp.2.1, nodupKeys_insert _ _ _ hp.2.2.1, hp.2.2.2.1,
        hp.2.2.2.2.1, hp.2.2.2.2.2.1, hp.2.2.2.2.2.2⟩

theorem addPoolAttr_wf (p : OrbiterProject) (es : EntitySets) (h : WFproj p) :
    WFproj (addPoolAttr p es) := by
  unfold addPoolAttr
  cases es.orbiter_pool with
  | some pool => exact add_pools_wf [pool] p h
  | none => exact h

theorem addConnsAttr_wf (p : OrbiterProject) (es : EntitySets) (h : WFproj p) :
    WFproj (addConnsAttr p es) := by
  unfold addConnsAttr
  by_cases he : es.orbiter_conns.isEmpty
  · simpa [he] using h
  · simpa [he] using add_connections_wf es.orbiter_conns p h

theorem addVarsAttr_wf (p : OrbiterProject) (es : EntitySets) (h : WFproj p) :
    WFproj (addVarsAttr p es) := by
  unfold addVarsAttr
  by_cases he : es.orbiter_vars.isEmpty
  · simpa [he] using h
  · simpa [he] using add_variables_wf es.orbiter_vars p h

theorem addEnvVarsAttr_wf (p : OrbiterProject) (es : EntitySets) (h : WFproj p) :
    WFproj (addEnvVarsAttr p es) := by
  unfold addEnvVarsAttr
  by_cases he : es.orbiter_env_vars.isEmpty
  · simpa [he] using h
  · simpa [he] using add_env_vars_wf es.orbiter_env_vars p h

theorem addIncludesAttr_wf (p : OrbiterProject) (es : EntitySets) (h : WFproj p) :
    WFproj (addIncludesAttr p es) := by
  unfold addIncludesAttr
  by_cases he : es.orbiter_includes.isEmpty
  · simpa [he] using h
  · simpa [he] using add_includes_wf es.orbiter_includes p h

theorem addImportsAttr_wf (p : OrbiterProject) (es : EntitySets) (h : WFproj p) :
    WFproj (addImportsAttr p es) := by
  unfold addImportsAttr
  by_cases he : es.imports.isEmpty
  · simpa [he] using h
  · simpa [he] using add_requirements_wf es.imports p h

theorem addEntitySets_wf (p : OrbiterProject) (es : EntitySets) (h : WFproj p) :
    WFproj (addEntitySets p es) :=
  addImportsAttr_wf _ es (addIncludesAttr_wf _ es (addEnvVarsAttr_wf _ es
    (addVarsAttr_wf _ es (addConnsAttr_wf _ es (addPoolAttr_wf p es h)))))

mutual

theorem walkThing_wf : (t : Thing) → (p : OrbiterProject) → WFproj p →
    WFproj (walkThing t p)
  | Thing.str _, _, hp => hp
  | Thing.container _, _, hp => hp
  | Thing.taskGroup es ts fs, p, hp =>
      addRecursively_wf fs _ (addRecursively_wf ts _ (addEntitySets_wf p es hp))
  | Thing.model es fs, p, hp =>
      addRecursively_wf fs _ (addEntitySets_wf p es hp)

theorem addRecursively_wf : (ts : List Thing) → (p : OrbiterProject) → WFproj p →
    WFproj (addRecursively ts p)
  | [], _, hp => hp
  | t :: ts, p, hp => addRecursively_wf ts _ (walkThing_wf t p hp)

end

theorem add_dags_wf (ds : List OrbiterDAG) (p : OrbiterProject)
    (h : WFproj p) : WFproj (p.add_dags ds) := by
  apply wf_foldl _ _ ds p h
  intro p dag hp
  apply addRecursively_wf
  apply addRecursively_wf
  cases hg : dictGet p.dags dag.dag_id with
  | some old =>
      exact ⟨nodupKeys_insert _ _ _ hp.1, hp.2.1, hp.2.2.1, hp.2.2.2.1,
        hp.2.2.2.2.1, hp.2.2.2.2.2.1, hp.2.2.2.2.2.2⟩
  | none =>
      exact ⟨nodupKeys_insert _ _ _ hp.1, hp.2.1, hp.2.2.1, hp.2.2.2.1,
        hp.2.2.2.2.1, hp.2.2.2.2.2.1, hp.2.2.2.2.2.2⟩

-- ### Small corollaries used by the claim theorems

theorem dictGet_insert_self {α : Type} (d : Dict α) (k : String) (v : α) :
    dictGet (dictInsert d k v) k = some v := by
  rw [dictGet_insert, if_pos rfl]

theorem dictGet_insert_ne {α : Type} (d : Dict α) (k k2 : String) (v : α)
    (h : k2 ≠ k) : dictGet (dictInsert d k v) k2 = dictGet d k2 := by
  rw [dictGet_insert, if_neg h]

theorem dictInsert_fresh {α : Type} (d : Dict α) (k : String) (v : α)
    (h : dictGet d k = none) : dictInsert d k v = d ++ [(k, v)] := by
  induction d with
  | nil => rfl
  | cons kv d ih =>
      rw [dictGet_cons] at h
      by_cases h1 : kv.1 = k
      · simp [h1] at h
      · simp only [h1, if_false] at h
        simp [dictInsert, h1, ih h]

theorem setAdd_idem {α : Type} [DecidableEq α] (s : List α) (x : α) :
    setAdd (setAdd s x) x = setAdd s x := by
  have h : x ∈ setAdd s x := mem_setAdd_self s x
  unfold setAdd
  rw [if_pos]
  exact h

theorem pool_merge_idem (pl : OrbiterPool) : pl.merge pl = pl := by
  unfold OrbiterPool.merge
  cases pl with
  | mk n d s => simp [ite_self, Nat.max_self]

theorem pool_merge_absorb (a b : OrbiterPool) : (a.merge b).merge b = a.merge b := by
  unfold OrbiterPool.merge
  simp only [OrbiterPool.mk.injEq, true_and, and_true]
  constructor
  · by_cases h : b.description = ""
    · simp [h]
    · simp [h]
  · show max (max a.slots b.slots) b.slots = max a.slots b.slots
    rw [Nat.max_assoc, Nat.max_self]

theorem dag_merge_idem (dag : OrbiterDAG) (h : nodupKeys dag.tasks) :
    dag.merge dag = dag := by
  unfold OrbiterDAG.merge
  cases dag with
  | mk i f t es df =>
      simp only [OrbiterDAG.mk.injEq, true_and, and_true]
      exact foldIns_self t h

theorem dag_merge_absorb (a b : OrbiterDAG) (h : nodupKeys a.tasks) :
    (a.merge b).merge b = a.merge b := by
  unfold OrbiterDAG.merge
  simp only [OrbiterDAG.mk.injEq, true_and, and_true]
  exact foldIns_rerun a.tasks b.tasks h

-- The walker and the non-dag add-operations never touch the dag dict.

theorem foldl_dags_eq {β : Type} (step : OrbiterProject → β → OrbiterProject)
    (h : ∀ p x, (step p x).dags = p.dags) : ∀ (l : List β) (p : OrbiterProject),
    (l.foldl step p).dags = p.dags
  | [], _ => rfl
  | x :: l, p => (foldl_dags_eq step h l (step p x)).trans (h p x)

theorem add_connections_dags (cs : List OrbiterConnection) (p : OrbiterProject) :
    (p.add_connections cs).dags = p.dags := by
  unfold OrbiterProject.add_connections
  apply foldl_dags_eq
  intro p x
  rfl

theorem add_variables_dags (vs : List OrbiterVariable) (p : OrbiterProject) :
    (p.add_variables vs).dags = p.dags := by
  unfold OrbiterProject.add_variables
  apply foldl_dags_eq
  intro p x
  rfl

theorem add_env_vars_dags (es : List OrbiterEnvVar) (p : OrbiterProject) :
    (p.add_env_vars es).dags = p.dags := by
  unfold OrbiterProject.add_env_vars
  apply foldl_dags_eq
  intro p x
  rfl

theorem add_includes_dags (is : List OrbiterInclude) (p : OrbiterProject) :
    (p.add_includes is).dags = p.dags := by
  unfold OrbiterProject.add_includes
  apply foldl_dags_eq
  intro p x
  rfl

theorem add_requirements_dags (rs : List OrbiterRequirement) (p : OrbiterProject) :
    (p.add_requirements rs).dags = p.dags := by
  unfold OrbiterProject.add_requirements
  apply foldl_dags_eq
  intro p x
  rfl

theorem add_pools_dags (ps : List OrbiterPool) (p : OrbiterProject) :
    (p.add_pools ps).dags = p.dags := by
  apply foldl_dags_eq
  intro p pool
  cases hg : dictGet p.pools pool.name with
  | some old => rfl
  | none => rfl

theorem addEntitySets_dags (p : OrbiterProject) (es : EntitySets) :
    (addEntitySets p es).dags = p.dags := by
  unfold addEntitySets addPoolAttr addConnsAttr addVarsAttr addEnvVarsAttr
    addIncludesAttr addImportsAttr
  cases es.orbiter_pool <;>
    by_cases h1 : es.orbiter_conns.isEmpty <;>
    by_cases h2 : es.orbiter_vars.isEmpty <;>
    by_cases h3 : es.orbiter_env_vars.isEmpty <;>
    by_cases h4 : es.orbiter_includes.isEmpty <;>
    by_cases h5 : es.imports.isEmpty <;>
    simp [h1, h2, h3, h4, h5, add_connections_dags, add_variables_dags,
      add_env_vars_dags, add_includes_dags, add_requirements_dags, add_pools_dags]

mutual

theorem walkThing_dags : (t : Thing) → (p : OrbiterProject) →
    (walkThing t p).dags = p.dags
  | Thing.str _, _ => rfl
  | Thing.container _, _ => rfl
  | Thing.taskGroup es ts fs, p =>
      ((addRecursively_dags fs _).trans (addRecursively_dags ts _)).trans
        (addEntitySets_dags p es)
  | Thing.model es fs, p =>
      (addRecursively_dags fs _).trans (addEntitySets_dags p es)

theorem addRecursively_dags : (ts : List Thing) → (p : OrbiterProject) →
    (addRecursively ts p).dags = p.dags
  | [], _ => rfl
  | t :: ts, p => (addRecursively_dags ts _).trans (walkThing_dags t p)

end

/-- Every DAG stored in the project has a duplicate-free task dict (true of
every real project, since Python dicts cannot repeat keys). -/
def WFdagTasks (p : OrbiterProject) : Prop :=
  ∀ kv ∈ p.dags, nodupKeys kv.2.tasks

theorem add_dags_dags_eq (p : OrbiterProject) (dag : OrbiterDAG) :
    (p.add_dags [dag]).dags =
      (match dictGet p.dags dag.dag_id with
       | some old => dictInsert p.dags dag.dag_id (old.merge dag)
       | none => dictInsert p.dags dag.dag_id dag) := by
  unfold OrbiterProject.add_dags
  cases hget : dictGet p.dags dag.dag_id with
  | some old =>
      simp only [List.foldl, hget]
      rw [addRecursively_dags, addRecursively_dags]
  | none =>
      simp only [List.foldl, hget]
      rw [addRecursively_dags, addRecursively_dags]

theorem add_pools_single_merge (q : OrbiterProject) (pool x : OrbiterPool)
    (hx : dictGet q.pools pool.name = some x) :
    (q.add_pools [pool]).pools = dictInsert q.pools pool.name (x.merge pool) := by
  unfold OrbiterProject.add_pools
  simp [List.foldl, hx]

theorem add_pools_single_fresh (q : OrbiterProject) (pool : OrbiterPool)
    (h : dictGet q.pools pool.name = none) :
    (q.add_pools [pool]).pools = dictInsert q.pools pool.name pool := by
  unfold OrbiterProject.add_pools
  simp [List.foldl, h]

-- ### C3

/-- C3: for every project with zero workflows, `render` fails with the
empty-project error (`RuntimeError("No DAGs to render!")` in the source —
the spec's `EmptyProjectError`) and writes no files: the emptiness check
is the first statement of `render`, so the error result carries no written
artifact. -/
theorem render_empty_project_error (p : OrbiterProject) (h : p.dags = []) :
    p.render = Except.error "No DAGs to render!" ∧
    ∀ files, p.render ≠ Except.ok files := by
  unfold OrbiterProject.render
  rw [h]
  exact ⟨rfl, fun files hc => by simp at hc⟩

theorem render_empty_project_error_witness :
    emptyProject.render = Except.error "No DAGs to render!" ∧
    ∀ files, emptyProject.render ≠ Except.ok files :=
  render_empty_project_error emptyProject rfl

-- ### C5

/-- C5: `add_connections` / `add_variables` / `add_env_vars` /
`add_includes` are last-write-wins by key: the stored entity under the
added entity's key is the new entity (never a field merge), a fresh key is
appended, and no other key's binding changes. -/
theorem add_overwrite_by_key :
    (∀ (p : OrbiterProject) (c : OrbiterConnection),
      dictGet (p.add_connections [c]).connections c.conn_id = some c) ∧
    (∀ (p : OrbiterProject) (c : OrbiterConnection) (k : String), k ≠ c.conn_id →
      dictGet (p.add_connections [c]).connections k = dictGet p.connections k) ∧
    (∀ (p : OrbiterProject) (c : OrbiterConnection),
      dictGet p.connections c.conn_id = none →
      (p.add_connections [c]).connections = p.connections ++ [(c.conn_id, c)]) ∧
    (∀ (p : OrbiterProject) (v : OrbiterVariable),
      dictGet (p.add_variables [v]).vars v.key = some v) ∧
    (∀ (p : OrbiterProject) (v : OrbiterVariable) (k : String), k ≠ v.key →
      dictGet (p.add_variables [v]).vars k = dictGet p.vars k) ∧
    (∀ (p : OrbiterProject) (v : OrbiterVariable),
      dictGet p.vars v.key = none →
      (p.add_variables [v]).vars = p.vars ++ [(v.key, v)]) ∧
    (∀ (p : OrbiterProject) (e : OrbiterEnvVar),
      dictGet (p.add_env_vars [e]).env_vars e.key = some e) ∧
    (∀ (p : OrbiterProject) (e : OrbiterEnvVar) (k : String), k ≠ e.key →
      dictGet (p.add_env_vars [e]).env_vars k = dictGet p.env_vars k) ∧
    (∀ (p : OrbiterProject) (e : OrbiterEnvVar),
      dictGet p.env_vars e.key = none →
      (p.add_env_vars [e]).env_vars = p.env_vars ++ [(e.key, e)]) ∧
    (∀ (p : OrbiterProject) (i : OrbiterInclude),
      dictGet (p.add_includes [i]).includes i.filepath = some i) ∧
    (∀ (p : OrbiterProject) (i : OrbiterInclude) (k : String), k ≠ i.filepath →
      dictGet (p.add_includes [i]).includes k = dictGet p.includes k) ∧
    (∀ (p : OrbiterProject) (i : OrbiterInclude),
      dictGet p.includes i.filepath = none →
      (p.add_includes [i]).includes = p.includes ++ [(i.filepath, i)]) := by
  refine ⟨?_, ?_, ?_, ?_, ?_, ?_, ?_, ?_, ?_, ?_, ?_, ?_⟩
  · intro p c
    exact dictGet_insert_self p.connections c.conn_id c
  · intro p c k hk
    exact dictGet_insert_ne p.connections c.conn_id k c hk
  · intro p c h
    exact dictInsert_fresh p.connections c.conn_id c h
  · intro p v
    exact dictGet_insert_self p.vars v.key v
  · intro p v k hk
    exact dictGet_insert_ne p.vars v.key k v hk
  · intro p v h
    exact dictInsert_fresh p.vars v.key v h
  · intro p e
    exact dictGet_insert_self p.env_vars e.key e
  · intro p e k hk
    exact dictGet_insert_ne p.env_vars e.key k e hk
  · intro p e h
    exact dictInsert_fresh p.env_vars e.key e h
  · intro p i
    exact dictGet_insert_self p.includes i.filepath i
  · intro p i k hk
    exact dictGet_insert_ne p.includes i.filepath k i hk
  · intro p i h
    exact dictInsert_fresh p.includes i.filepath i h

theorem add_overwrite_by_key_witness :
    dictGet ((emptyProject.add_connections [⟨"c1", "generic"⟩]).add_connections
      [⟨"c1", "smtp"⟩]).connections "c1" = some ⟨"c1", "smtp"⟩ ∧
    (emptyProject.add_variables [⟨"k1", "v1"⟩]).vars = [("k1", ⟨"k1", "v1"⟩)] := by
  constructor
  · exact add_overwrite_by_key.1 (emptyProject.add_connections [⟨"c1", "generic"⟩])
      ⟨"c1", "smtp"⟩
  · exact (add_overwrite_by_key.2.2.2.2.2.1 emptyProject ⟨"k1", "v1"⟩ (by decide))

-- ### C2

/-- C2 (amended): `add_pools` merges on a name collision and inserts
otherwise, but the merge is not additive: the stored pool keeps the
existing name, takes the incoming description when it is non-empty, and
takes the maximum of the two slot counts (per the in-source `add_pools`
doctest: slots 1 then slots 2 yields slots 2).  In particular adding `p1`
with 2 slots and then `p1` with 3 slots stores `p1` with 3 slots, not 5. -/
theorem add_pools_merge_or_insert (p : OrbiterProject) (pool old : OrbiterPool) :
    (dictGet p.pools pool.name = some old →
      dictGet (p.add_pools [pool]).pools pool.name =
        some ⟨old.name,
          if pool.description = "" then old.description else pool.description,
          max old.slots pool.slots⟩) ∧
    (dictGet p.pools pool.name = none →
      (p.add_pools [pool]).pools = p.pools ++ [(pool.name, pool)]) := by
  constructor
  · intro hget
    have hstep : p.add_pools [pool] =
        { p with pools := dictInsert p.pools pool.name (old.merge pool) } := by
      unfold OrbiterProject.add_pools
      simp [List.foldl, hget]
    rw [hstep]
    exact dictGet_insert_self p.pools pool.name (old.merge pool)
  · intro hget
    have hstep : p.add_pools [pool] =
        { p with pools := dictInsert p.pools pool.name pool } := by
      unfold OrbiterProject.add_pools
      simp [List.foldl, hget]
    rw [hstep]
    exact dictInsert_fresh p.pools pool.name pool hget

theorem add_pools_merge_or_insert_witness :
    dictGet ((emptyProject.add_pools [⟨"p1", "", 2⟩]).add_pools
      [⟨"p1", "", 3⟩]).pools "p1" = some ⟨"p1", "", 3⟩ := by
  have h := (add_pools_merge_or_insert (emptyProject.add_pools [⟨"p1", "", 2⟩])
    ⟨"p1", "", 3⟩ ⟨"p1", "", 2⟩).1 (by decide)
  simpa using h

/-- C2 is false as stated: the merge is not additive — after adding `p1`
with 2 slots and `p1` with 3 slots the stored pool has 3 slots, not 5. -/
theorem add_pools_additive_counterexample :
    dictGet ((emptyProject.add_pools [⟨"p1", "", 2⟩]).add_pools
      [⟨"p1", "", 3⟩]).pools "p1" ≠ some ⟨"p1", "", 5⟩ := by
  decide

-- ### C4

/-- C4: adding the same entity twice through its add-operation leaves the
corresponding collection identical to adding it once; overwrite-kind
entities store the most recently added value, a duplicate requirement add
is a no-op, and the pool and workflow merges are idempotent (`X + X = X`). -/
theorem add_twice_idempotent (p : OrbiterProject) (c : OrbiterConnection)
    (v : OrbiterVariable) (e : OrbiterEnvVar) (i : OrbiterInclude)
    (r : OrbiterRequirement) (pl : OrbiterPool) (dag : OrbiterDAG)
    (hdag : nodupKeys dag.tasks) (hp : WFdagTasks p) :
    ((p.add_connections [c]).add_connections [c]).connections =
      (p.add_connections [c]).connections ∧
    dictGet ((p.add_connections [c]).add_connections [c]).connections c.conn_id =
      some c ∧
    ((p.add_variables [v]).add_variables [v]).vars = (p.add_variables [v]).vars ∧
    dictGet ((p.add_variables [v]).add_variables [v]).vars v.key = some v ∧
    ((p.add_env_vars [e]).add_env_vars [e]).env_vars =
      (p.add_env_vars [e]).env_vars ∧
    dictGet ((p.add_env_vars [e]).add_env_vars [e]).env_vars e.key = some e ∧
    ((p.add_includes [i]).add_includes [i]).includes =
      (p.add_includes [i]).includes ∧
    dictGet ((p.add_includes [i]).add_includes [i]).includes i.filepath = some i ∧
    ((p.add_requirements [r]).add_requirements [r]).requirements =
      (p.add_requirements [r]).requirements ∧
    ((p.add_pools [pl]).add_pools [pl]).pools = (p.add_pools [pl]).pools ∧
    pl.merge pl = pl ∧
    dag.merge dag = dag ∧
    ((p.add_dags [dag]).add_dags [dag]).dags = (p.add_dags [dag]).dags := by
  refine ⟨dictInsert_idem p.connections c.conn_id c,
    ?_, dictInsert_idem p.vars v.key v, ?_,
    dictInsert_idem p.env_vars e.key e, ?_,
    dictInsert_idem p.includes i.filepath i, ?_,
    setAdd_idem p.requirements r, ?_, pool_merge_idem pl,
    dag_merge_idem dag hdag, ?_⟩
  · show dictGet (dictInsert (dictInsert p.connections c.conn_id c) c.conn_id c)
      c.conn_id = some c
    exact dictGet_insert_self _ _ _
  · exact dictGet_insert_self _ _ _
  · exact dictGet_insert_self _ _ _
  · exact dictGet_insert_self _ _ _
  · -- pools: the second add merges the stored pool with itself and
    -- rewrites the same binding
    cases hget : dictGet p.pools pl.name with
    | some old =>
        have h1 := add_pools_single_merge p pl old hget
        have hget2 : dictGet (p.add_pools [pl]).pools pl.name = some (old.merge pl) := by
          rw [h1]
          exact dictGet_insert_self _ _ _
        have h2 := add_pools_single_merge (p.add_pools [pl]) pl (old.merge pl) hget2
        rw [h2, pool_merge_absorb, h1]
        exact dictInsert_idem _ _ _
    | none =>
        have h1 := add_pools_single_fresh p pl hget
        have hget2 : dictGet (p.add_pools [pl]).pools pl.name = some pl := by
          rw [h1]
          exact dictGet_insert_self _ _ _
        have h2 := add_pools_single_merge (p.add_pools [pl]) pl pl hget2
        rw [h2, pool_merge_idem, h1]
        exact dictInsert_idem _ _ _
  · -- dags: the second add merges the stored DAG with the same DAG again
    cases hget : dictGet p.dags dag.dag_id with
    | some old =>
        have hnodup : nodupKeys old.tasks :=
          hp (dag.dag_id, old) (dictGet_eq_some_mem _ _ _ hget)
        have h1 : (p.add_dags [dag]).dags = dictInsert p.dags dag.dag_id
            (old.merge dag) := by
          rw [add_dags_dags_eq, hget]
        have hget2 : dictGet (p.add_dags [dag]).dags dag.dag_id =
            some (old.merge dag) := by
          rw [h1]
          exact dictGet_insert_self _ _ _
        rw [add_dags_dags_eq, hget2]
        show dictInsert (p.add_dags [dag]).dags dag.dag_id ((old.merge dag).merge dag) =
          (p.add_dags [dag]).dags
        rw [dag_merge_absorb old dag hnodup, h1]
        exact dictInsert_idem _ _ _
    | none =>
        have h1 : (p.add_dags [dag]).dags = dictInsert p.dags dag.dag_id dag := by
          rw [add_dags_dags_eq, hget]
        have hget2 : dictGet (p.add_dags [dag]).dags dag.dag_id = some dag := by
          rw [h1]
          exact dictGet_insert_self _ _ _
        rw [add_dags_dags_eq, hget2]
        show dictInsert (p.add_dags [dag]).dags dag.dag_id (dag.merge dag) =
          (p.add_dags [dag]).dags
        rw [dag_merge_idem dag hdag, h1]
        exact dictInsert_idem _ _ _

theorem add_twice_idempotent_witness :
    ((emptyProject.add_pools [⟨"p1", "d", 7⟩]).add_pools [⟨"p1", "d", 7⟩]).pools =
      (emptyProject.add_pools [⟨"p1", "d", 7⟩]).pools ∧
    ((emptyProject.add_dags [⟨"dg", "f.py", [], noEntities, []⟩]).add_dags
      [⟨"dg", "f.py", [], noEntities, []⟩]).dags =
      (emptyProject.add_dags [⟨"dg", "f.py", [], noEntities, []⟩]).dags := by
  have h := add_twice_idempotent emptyProject ⟨"c", "generic"⟩ ⟨"k", "v"⟩
    ⟨"k", "v"⟩ ⟨"f", "x"⟩ ⟨[], "m", none, none⟩ ⟨"p1", "d", 7⟩
    ⟨"dg", "f.py", [], noEntities, []⟩ (by decide)
    (by intro kv hkv; simp [emptyProject] at hkv)
  exact ⟨h.2.2.2.2.2.2.2.2.2.1, h.2.2.2.2.2.2.2.2.2.2.2.2⟩

-- ### C6

theorem extractAll_none {α : Type} (ex : PyVal → Option α) (vs : List PyVal)
    (h : vs.any (fun v => (ex v).isNone) = true) : extractAll ex vs = none := by
  induction vs with
  | nil => simp at h
  | cons v vs ih =>
      simp only [List.any_cons, Bool.or_eq_true] at h
      cases hv : ex v with
      | none => simp [extractAll, hv]
      | some a =>
          rcases h with h | h
          · rw [hv] at h
            simp at h
          · simp [extractAll, hv, ih h]

theorem validatedAdd_error {α : Type} (ex : PyVal → Option α)
    (app : OrbiterProject → List α → OrbiterProject) (p : OrbiterProject)
    (arg : PyArg) (h : hasWrongKind ex arg = true) :
    validatedAdd ex app p arg = Except.error "ValidationError" := by
  cases arg with
  | single v =>
      simp only [hasWrongKind] at h
      simp only [validatedAdd]
      cases hv : ex v with
      | some a =>
          rw [hv] at h
          simp at h
      | none => rfl
  | seq vs =>
      simp only [hasWrongKind] at h
      simp only [validatedAdd]
      rw [extractAll_none ex vs h]

/-- C6: every validated add-operation (`validate_call` wraps all seven)
fails with `ValidationError` when the argument holds a wrong-kind value,
whether as a single value or anywhere inside a sequence, and the error is
raised before any mutation: the error result carries no project state, so
every collection is exactly as before the call. -/
theorem wrong_kind_validation_error (p : OrbiterProject) (arg : PyArg) :
    (hasWrongKind asConn arg = true →
      validatedAdd asConn OrbiterProject.add_connections p arg =
        Except.error "ValidationError") ∧
    (hasWrongKind asDag arg = true →
      validatedAdd asDag OrbiterProject.add_dags p arg =
        Except.error "ValidationError") ∧
    (hasWrongKind asEnv arg = true →
      validatedAdd asEnv OrbiterProject.add_env_vars p arg =
        Except.error "ValidationError") ∧
    (hasWrongKind asInc arg = true →
      validatedAdd asInc OrbiterProject.add_includes p arg =
        Except.error "ValidationError") ∧
    (hasWrongKind asPool arg = true →
      validatedAdd asPool OrbiterProject.add_pools p arg =
        Except.error "ValidationError") ∧
    (hasWrongKind asReq arg = true →
      validatedAdd asReq OrbiterProject.add_requirements p arg =
        Except.error "ValidationError") ∧
    (hasWrongKind asVar arg = true →
      validatedAdd asVar OrbiterProject.add_variables p arg =
        Except.error "ValidationError") :=
  ⟨validatedAdd_error asConn _ p arg, validatedAdd_error asDag _ p arg,
   validatedAdd_error asEnv _ p arg, validatedAdd_error asInc _ p arg,
   validatedAdd_error asPool _ p arg, validatedAdd_error asReq _ p arg,
   validatedAdd_error asVar _ p arg⟩

theorem wrong_kind_validation_error_witness :
    validatedAdd asConn OrbiterProject.add_connections emptyProject
      (PyArg.single (PyVal.str "foo")) = Except.error "ValidationError" ∧
    validatedAdd asPool OrbiterProject.add_pools emptyProject
      (PyArg.seq [PyVal.pool ⟨"p", "", 1⟩, PyVal.str "foo"]) =
      Except.error "ValidationError" :=
  ⟨(wrong_kind_validation_error emptyProject (PyArg.single (PyVal.str "foo"))).1 rfl,
   (wrong_kind_validation_error emptyProject
     (PyArg.seq [PyVal.pool ⟨"p", "", 1⟩, PyVal.str "foo"])).2.2.2.2.1 rfl⟩

-- ### C10

set_option maxHeartbeats 1600000 in
/-- C10: the `+` operation on projects returns the left project unchanged
for a falsy right operand, raises `TypeError` for a truthy non-project
operand (before touching any collection), and for a project operand folds
every collection of the right project into the left project through the
per-kind add-operations — so the result keeps everything the left project
had (`Mono`) and contains every key and requirement of the right project.
The in-place aliasing of the Python implementation (`return self`) has no
further observable content in a value semantics. -/
theorem project_add_operator (p : OrbiterProject) :
    p.addOp PyOperand.falsy = Except.ok p ∧
    p.addOp PyOperand.other = Except.error "TypeError" ∧
    (∀ q result, p.addOp (PyOperand.proj q) = Except.ok result →
      Mono p result ∧
      (∀ kv ∈ q.dags, hasKey result.dags kv.2.dag_id = true) ∧
      (∀ r ∈ q.requirements, r ∈ result.requirements) ∧
      (∀ kv ∈ q.pools, hasKey result.pools kv.2.name = true) ∧
      (∀ kv ∈ q.connections, hasKey result.connections kv.2.conn_id = true) ∧
      (∀ kv ∈ q.vars, hasKey result.vars kv.2.key = true) ∧
      (∀ kv ∈ q.env_vars, hasKey result.env_vars kv.2.key = true) ∧
      (∀ kv ∈ q.includes, hasKey result.includes kv.2.filepath = true)) := by
  refine ⟨rfl, rfl, ?_⟩
  intro q result h
  unfold OrbiterProject.addOp at h
  simp only [Except.ok.injEq] at h
  subst h
  constructor
  · exact mono_trans (add_dags_mono _ p)
      (mono_trans (add_requirements_mono _ _)
        (mono_trans (add_pools_mono _ _)
          (mono_trans (add_connections_mono _ _)
            (mono_trans (add_variables_mono _ _)
              (mono_trans (add_env_vars_mono _ _) (add_includes_mono _ _))))))
  refine ⟨?_, ?_, ?_, ?_, ?_, ?_, ?_⟩
  · intro kv hm
    have h1 : hasKey (p.add_dags (q.dags.map (fun kv => kv.2))).dags kv.2.dag_id = true :=
      add_dags_has _ p kv.2 (List.mem_map.mpr ⟨kv, hm, rfl⟩)
    exact (mono_trans (add_requirements_mono _ _)
      (mono_trans (add_pools_mono _ _)
        (mono_trans (add_connections_mono _ _)
          (mono_trans (add_variables_mono _ _)
            (mono_trans (add_env_vars_mono _ _) (add_includes_mono _ _)))))).1 _ h1
  · intro r hm
    have h1 := add_requirements_has q.requirements
      (p.add_dags (q.dags.map (fun kv => kv.2))) r hm
    exact (mono_trans (add_pools_mono _ _)
      (mono_trans (add_connections_mono _ _)
        (mono_trans (add_variables_mono _ _)
          (mono_trans (add_env_vars_mono _ _)
            (add_includes_mono _ _))))).2.2.2.2.2.2 _ h1
  · intro kv hm
    have h1 := add_pools_has (q.pools.map (fun kv => kv.2)) ((p.add_dags (q.dags.map (fun kv => kv.2))).add_requirements q.requirements) kv.2
      (List.mem_map.mpr ⟨kv, hm, rfl⟩)
    exact (mono_trans (add_connections_mono _ _)
      (mono_trans (add_variables_mono _ _)
        (mono_trans (add_env_vars_mono _ _) (add_includes_mono _ _)))).2.1 _ h1
  · intro kv hm
    have h1 := add_connections_has (q.connections.map (fun kv => kv.2)) (((p.add_dags (q.dags.map (fun kv => kv.2))).add_requirements q.requirements).add_pools (q.pools.map (fun kv => kv.2))) kv.2
      (List.mem_map.mpr ⟨kv, hm, rfl⟩)
    exact (mono_trans (add_variables_mono _ _)
      (mono_trans (add_env_vars_mono _ _) (add_includes_mono _ _))).2.2.1 _ h1
  · intro kv hm
    have h1 := add_variables_has (q.vars.map (fun kv => kv.2)) ((((p.add_dags (q.dags.map (fun kv => kv.2))).add_requirements q.requirements).add_pools (q.pools.map (fun kv => kv.2))).add_connections (q.connections.map (fun kv => kv.2))) kv.2
      (List.mem_map.mpr ⟨kv, hm, rfl⟩)
    exact (mono_trans (add_env_vars_mono _ _) (add_includes_mono _ _)).2.2.2.1 _ h1
  · intro kv hm
    have h1 := add_env_vars_has (q.env_vars.map (fun kv => kv.2)) (((((p.add_dags (q.dags.map (fun kv => kv.2))).add_requirements q.requirements).add_pools (q.pools.map (fun kv => kv.2))).add_connections (q.connections.map (fun kv => kv.2))).add_variables (q.vars.map (fun kv => kv.2))) kv.2
      (List.mem_map.mpr ⟨kv, hm, rfl⟩)
    exact (add_includes_mono _ _).2.2.2.2.1 _ h1
  · intro kv hm
    exact add_includes_has (q.includes.map (fun kv => kv.2)) ((((((p.add_dags (q.dags.map (fun kv => kv.2))).add_requirements q.requirements).add_pools (q.pools.map (fun kv => kv.2))).add_connections (q.connections.map (fun kv => kv.2))).add_variables (q.vars.map (fun kv => kv.2))).add_env_vars (q.env_vars.map (fun kv => kv.2))) kv.2
      (List.mem_map.mpr ⟨kv, hm, rfl⟩)

theorem project_add_operator_witness :
    ∃ result, emptyProject.addOp (PyOperand.proj
      (emptyProject.add_connections [⟨"c1", "generic"⟩])) = Except.ok result ∧
      hasKey result.connections "c1" = true := by
  refine ⟨_, rfl, ?_⟩
  have h := (project_add_operator emptyProject).2.2
    (emptyProject.add_connections [⟨"c1", "generic"⟩]) _ rfl
  exact h.2.2.2.2.1 ("c1", ⟨"c1", "generic"⟩) (by decide)

-- ### C8

theorem sortedDedup_sorted (l : List String) :
    (sortedDedup l).Sorted (fun a b => a ≤ b) :=
  List.sorted_insertionSort _ l.dedup

theorem sortedDedup_nodup (l : List String) : (sortedDedup l).Nodup :=
  ((List.perm_insertionSort (fun a b => a ≤ b) l.dedup).symm).nodup (List.nodup_dedup l)

theorem sortedDedup_mem (l : List String) (s : String) :
    s ∈ sortedDedup l ↔ s ∈ l := by
  unfold sortedDedup
  rw [(List.perm_insertionSort (fun a b => a ≤ b) l.dedup).mem_iff]
  exact List.mem_dedup

theorem sortedDedup_perm_eq (l1 l2 : List String) (h : l1.Perm l2) :
    sortedDedup l1 = sortedDedup l2 := by
  unfold sortedDedup
  have hp : (List.insertionSort (fun a b => a ≤ b) l1.dedup).Perm
      (List.insertionSort (fun a b => a ≤ b) l2.dedup) :=
    (List.perm_insertionSort _ _).trans
      (h.dedup.trans (List.perm_insertionSort _ _).symm)
  haveI : IsAntisymm String (fun a b => a ≤ b) := ⟨fun a b h1 h2 => le_antisymm h1 h2⟩
  exact List.eq_of_perm_of_sorted hp (List.sorted_insertionSort _ _)
    (List.sorted_insertionSort _ _)

theorem isEmpty_eq_of_perm {α : Type} (l1 l2 : List α) (h : l1.Perm l2) :
    l1.isEmpty = l2.isEmpty := by
  cases l1 with
  | nil =>
      rw [h.symm.eq_nil]
  | cons x l =>
      cases l2 with
      | nil => exact absurd h.eq_nil (by simp)
      | cons y l2 => rfl

/-- C8: `render` is deterministic.  The dependency manifest and the
system-package manifest each hold exactly the sorted, deduplicated,
newline-joined set of non-empty package (resp. system-package) names of
the requirements, and the whole output is a pure function of the project's
collections that is invariant under the iteration order of the
requirements set (the one collection Python iterates in unspecified
order) — so rendering the same aggregated project twice is byte-identical. -/
theorem render_deterministic_manifests (p : OrbiterProject)
    (arts : List (String × String)) (h : p.render = Except.ok arts) :
    (¬ (pkgNames p).isEmpty = true →
      ("requirements.txt",
        String.intercalate "\n" (sortedDedup (pkgNames p))) ∈ arts) ∧
    (sortedDedup (pkgNames p)).Sorted (fun a b => a ≤ b) ∧
    (sortedDedup (pkgNames p)).Nodup ∧
    (∀ s, s ∈ sortedDedup (pkgNames p) ↔ s ∈ pkgNames p) ∧
    (¬ (sysPkgNames p).isEmpty = true →
      ("packages.txt",
        String.intercalate "\n" (sortedDedup (sysPkgNames p))) ∈ arts) ∧
    (sortedDedup (sysPkgNames p)).Sorted (fun a b => a ≤ b) ∧
    (sortedDedup (sysPkgNames p)).Nodup ∧
    (∀ s, s ∈ sortedDedup (sysPkgNames p) ↔ s ∈ sysPkgNames p) ∧
    (∀ q : OrbiterProject, q.dags = p.dags → q.requirements.Perm p.requirements →
      q.pools = p.pools → q.connections = p.connections → q.vars = p.vars →
      q.env_vars = p.env_vars → q.includes = p.includes → q.render = p.render) := by
  unfold OrbiterProject.render at h
  by_cases hz : p.dags.length = 0
  · rw [if_pos hz] at h
    simp at h
  · rw [if_neg hz] at h
    simp only [Except.ok.injEq] at h
    subst h
    refine ⟨?_, sortedDedup_sorted _, sortedDedup_nodup _, sortedDedup_mem _,
      ?_, sortedDedup_sorted _, sortedDedup_nodup _, sortedDedup_mem _, ?_⟩
    · intro hne
      apply List.mem_append.mpr
      apply Or.inl
      apply List.mem_append.mpr
      apply Or.inl
      apply List.mem_append.mpr
      apply Or.inl
      apply List.mem_append.mpr
      apply Or.inl
      apply List.mem_append.mpr
      apply Or.inr
      rw [if_neg hne]
      exact List.mem_singleton.mpr rfl
    · intro hne
      apply List.mem_append.mpr
      apply Or.inl
      apply List.mem_append.mpr
      apply Or.inl
      apply List.mem_append.mpr
      apply Or.inl
      apply List.mem_append.mpr
      apply Or.inr
      rw [if_neg hne]
      exact List.mem_singleton.mpr rfl
    · intro q hdag hreq hpool hconn hvar henv hinc
      have hperm : (pkgNames q).Perm (pkgNames p) := hreq.filterMap _
      have hperm2 : (sysPkgNames q).Perm (sysPkgNames p) := hreq.filterMap _
      have hie : (pkgNames q).isEmpty = (pkgNames p).isEmpty :=
        isEmpty_eq_of_perm _ _ hperm
      have hie2 : (sysPkgNames q).isEmpty = (sysPkgNames p).isEmpty :=
        isEmpty_eq_of_perm _ _ hperm2
      have hsd : sortedDedup (pkgNames q) = sortedDedup (pkgNames p) :=
        sortedDedup_perm_eq _ _ hperm
      have hsd2 : sortedDedup (sysPkgNames q) = sortedDedup (sysPkgNames p) :=
        sortedDedup_perm_eq _ _ hperm2
      have hdoc : settingsDoc q = settingsDoc p := by
        unfold settingsDoc
        rw [hpool, hvar, hconn]
      unfold OrbiterProject.render
      rw [hdag, hdoc, hie, hie2, hsd, hsd2, hpool, hconn, hvar, henv, hinc]

theorem render_deterministic_manifests_witness :
    ∃ arts,
      (OrbiterProject.mk [("d", ⟨"d", "d.py", [], noEntities, []⟩)]
        [⟨["A"], "m1", some "pkga", none⟩, ⟨["A"], "m2", some "pkga", none⟩]
        [] [] [] [] []).render = Except.ok arts ∧
      ("requirements.txt", "pkga") ∈ arts := by
  refine ⟨_, rfl, ?_⟩
  have h := (render_deterministic_manifests
    (OrbiterProject.mk [("d", ⟨"d", "d.py", [], noEntities, []⟩)]
      [⟨["A"], "m1", some "pkga", none⟩, ⟨["A"], "m2", some "pkga", none⟩]
      [] [] [] [] []) _ rfl).1 (by decide)
  have he : String.intercalate "\n" (sortedDedup (pkgNames
      (OrbiterProject.mk [("d", ⟨"d", "d.py", [], noEntities, []⟩)]
        [⟨["A"], "m1", some "pkga", none⟩, ⟨["A"], "m2", some "pkga", none⟩]
        [] [] [] [] []))) = "pkga" := by decide
  rw [he] at h
  exact h

-- ### C7

theorem dictGet_of_mem_nodup {α : Type} (d : Dict α) (k : String) (v : α)
    (hn : nodupKeys d) (hm : (k, v) ∈ d) : dictGet d k = some v := by
  induction d with
  | nil => simp at hm
  | cons kv d ih =>
      have hn1 : nodupKeys d := by
        unfold nodupKeys at hn ⊢
        simpa [keysOf] using (List.nodup_cons.mp hn).2
      have hnotin : kv.1 ∉ keysOf d := by
        unfold nodupKeys at hn
        simpa [keysOf] using (List.nodup_cons.mp hn).1
      rw [dictGet_cons]
      rcases List.mem_cons.mp hm with h | h
      · rw [← h]
        simp
      · by_cases hk : kv.1 = k
        · exfalso
          apply hnotin
          rw [hk]
          exact List.mem_map.mpr ⟨(k, v), h, rfl⟩
        · rw [if_neg hk]
          exact ih hn1 h

theorem setEqB_iff {α : Type} [DecidableEq α] (a b : List α) :
    setEqB a b = true ↔ ∀ x, x ∈ a ↔ x ∈ b := by
  unfold setEqB
  rw [Bool.and_eq_true, List.all_eq_true, List.all_eq_true]
  constructor
  · rintro ⟨h1, h2⟩ x
    exact ⟨fun hx => of_decide_eq_true (h1 x hx),
      fun hx => of_decide_eq_true (h2 x hx)⟩
  · intro h
    exact ⟨fun x hx => decide_eq_true ((h x).mp hx),
      fun x hx => decide_eq_true ((h x).mpr hx)⟩

theorem dictEqB_iff {α : Type} [DecidableEq α] (d1 d2 : Dict α)
    (h1 : nodupKeys d1) (h2 : nodupKeys d2) :
    dictEqB d1 d2 = true ↔ ∀ k, dictGet d1 k = dictGet d2 k := by
  unfold dictEqB
  rw [Bool.and_eq_true, List.all_eq_true, List.all_eq_true]
  constructor
  · rintro ⟨ha, hb⟩ k
    cases hg1 : dictGet d1 k with
    | some v =>
        have hm := dictGet_eq_some_mem d1 k v hg1
        exact (of_decide_eq_true (ha (k, v) hm)).symm
    | none =>
        cases hg2 : dictGet d2 k with
        | some w =>
            have hm := dictGet_eq_some_mem d2 k w hg2
            have := of_decide_eq_true (hb (k, w) hm)
            rw [hg1] at this
            simp at this
        | none => rfl
  · intro h
    constructor
    · intro kv hm
      apply decide_eq_true
      rw [← h kv.1]
      exact dictGet_of_mem_nodup d1 kv.1 kv.2 h1 hm
    · intro kv hm
      apply decide_eq_true
      rw [h kv.1]
      exact dictGet_of_mem_nodup d2 kv.1 kv.2 h2 hm

theorem dagChecks_all_iff (self other : OrbiterProject) (ks : List String) :
    (∃ c, dagChecks self other ks = some c ∧ c.all (fun b => b) = true) ↔
    (∀ d ∈ ks, ∃ a b, dictGet self.dags d = some a ∧
      dictGet other.dags d = some b ∧ a.render = b.render) := by
  induction ks with
  | nil =>
      constructor
      · intro _ d hd
        simp at hd
      · intro _
        exact ⟨[], rfl, rfl⟩
  | cons d ks ih =>
      cases hga : dictGet self.dags d with
      | none =>
          constructor
          · rintro ⟨c, hc, hall⟩
            rw [show dagChecks self other (d :: ks) = none from by
              simp [dagChecks, hga]] at hc
            simp at hc
          · intro hall
            rcases hall d (List.mem_cons_self _ _) with ⟨a, b, ha, _, _⟩
            rw [hga] at ha
            simp at ha
      | some a =>
          cases hgb : dictGet other.dags d with
          | none =>
              constructor
              · rintro ⟨c, hc, hall⟩
                rw [show dagChecks self other (d :: ks) = none from by
                  simp [dagChecks, hga, hgb]] at hc
                simp at hc
              · intro hall
                rcases hall d (List.mem_cons_self _ _) with ⟨a2, b2, _, hb, _⟩
                rw [hgb] at hb
                simp at hb
          | some b =>
              have heq : dagChecks self other (d :: ks) =
                  (dagChecks self other ks).map
                    (fun rest => decide (a.render = b.render) :: rest) := by
                simp [dagChecks, hga, hgb]
              constructor
              · rintro ⟨c, hc, hall⟩
                rw [heq] at hc
                cases hrec : dagChecks self other ks with
                | none =>
                    rw [hrec] at hc
                    simp at hc
                | some c0 =>
                    rw [hrec] at hc
                    simp only [Option.map_some', Option.some.injEq] at hc
                    subst hc
                    simp only [List.all_cons, Bool.and_eq_true] at hall
                    intro d2 hd2
                    rcases List.mem_cons.mp hd2 with h | h
                    · subst h
                      exact ⟨a, b, hga, hgb, of_decide_eq_true hall.1⟩
                    · exact (ih.mp ⟨c0, hrec, hall.2⟩) d2 h
              · intro hall
                rcases hall d (List.mem_cons_self _ _) with ⟨a2, b2, ha2, hb2, hr⟩
                rw [hga] at ha2
                rw [hgb] at hb2
                simp only [Option.some.injEq] at ha2 hb2
                have hr2 : a.render = b.render := by
                  rw [ha2, hb2]
                  exact hr
                rcases ih.mpr (fun d2 hd2 => hall d2 (List.mem_cons_of_mem _ hd2))
                  with ⟨c0, hc0, hall0⟩
                refine ⟨decide (a.render = b.render) :: c0, ?_, ?_⟩
                · rw [heq, hc0]
                  rfl
                · simp [hall0, hr2]

/-- C7 (amended): project equality `==` holds iff the workflows of both
sides compare equal by rendered text for every workflow id present in
either side (all such ids being present in both — otherwise the
comparison raises `KeyError`, modelled as `none`), and requirements
(as a set), pools, connections, variables, and env vars compare equal by
value.  `includes` is *not* compared: two projects that differ only in
their includes compare equal. -/
theorem project_eq_characterization (P Q : OrbiterProject)
    (hP : WFproj P) (hQ : WFproj Q) :
    P.eq Q = some true ↔
      ((∀ d, d ∈ keysOf P.dags ∨ d ∈ keysOf Q.dags →
        ∃ a b, dictGet P.dags d = some a ∧ dictGet Q.dags d = some b ∧
          a.render = b.render) ∧
       (∀ r, r ∈ P.requirements ↔ r ∈ Q.requirements) ∧
       (∀ k, dictGet P.pools k = dictGet Q.pools k) ∧
       (∀ k, dictGet P.connections k = dictGet Q.connections k) ∧
       (∀ k, dictGet P.vars k = dictGet Q.vars k) ∧
       (∀ k, dictGet P.env_vars k = dictGet Q.env_vars k)) := by
  constructor
  · intro h
    cases hc1 : dagChecks P Q (keysOf P.dags) with
    | none =>
        unfold OrbiterProject.eq at h
        rw [hc1] at h
        simp at h
    | some c1 =>
        cases hc2 : dagChecks P Q (keysOf Q.dags) with
        | none =>
            unfold OrbiterProject.eq at h
            rw [hc1, hc2] at h
            simp at h
        | some c2 =>
            unfold OrbiterProject.eq at h
            rw [hc1, hc2] at h
            simp only [Option.some.injEq] at h
            rw [List.all_append, List.all_append] at h
            simp only [List.all_cons, List.all_nil, Bool.and_eq_true,
              Bool.and_true] at h
            obtain ⟨⟨hall1, hall2⟩, hsetb, hpoolb, hconnb, hvarb, henvb⟩ := h
            refine ⟨?_, (setEqB_iff _ _).mp hsetb,
              (dictEqB_iff _ _ hP.2.2.1 hQ.2.2.1).mp hpoolb,
              (dictEqB_iff _ _ hP.2.2.2.1 hQ.2.2.2.1).mp hconnb,
              (dictEqB_iff _ _ hP.2.2.2.2.1 hQ.2.2.2.2.1).mp hvarb,
              (dictEqB_iff _ _ hP.2.2.2.2.2.1 hQ.2.2.2.2.2.1).mp henvb⟩
            intro d hd
            rcases hd with hd | hd
            · exact (dagChecks_all_iff P Q (keysOf P.dags)).mp ⟨c1, hc1, hall1⟩ d hd
            · exact (dagChecks_all_iff P Q (keysOf Q.dags)).mp ⟨c2, hc2, hall2⟩ d hd
  · rintro ⟨hd, hr, hpool, hconn, hvar, henv⟩
    rcases (dagChecks_all_iff P Q (keysOf P.dags)).mpr
      (fun d hdm => hd d (Or.inl hdm)) with ⟨c1, hc1, hall1⟩
    rcases (dagChecks_all_iff P Q (keysOf Q.dags)).mpr
      (fun d hdm => hd d (Or.inr hdm)) with ⟨c2, hc2, hall2⟩
    unfold OrbiterProject.eq
    rw [hc1, hc2]
    simp only [Option.some.injEq]
    rw [List.all_append, List.all_append]
    simp only [List.all_cons, List.all_nil, Bool.and_eq_true, Bool.and_true]
    exact ⟨⟨hall1, hall2⟩, (setEqB_iff _ _).mpr hr,
      (dictEqB_iff _ _ hP.2.2.1 hQ.2.2.1).mpr hpool,
      (dictEqB_iff _ _ hP.2.2.2.1 hQ.2.2.2.1).mpr hconn,
      (dictEqB_iff _ _ hP.2.2.2.2.1 hQ.2.2.2.2.1).mpr hvar,
      (dictEqB_iff _ _ hP.2.2.2.2.2.1 hQ.2.2.2.2.2.1).mpr henv⟩

theorem project_eq_characterization_witness :
    emptyProject.eq emptyProject = some true := by
  have h := (project_eq_characterization emptyProject emptyProject
    (by decide) (by decide)).mpr
  apply h
  refine ⟨?_, fun r => Iff.rfl, fun k => rfl, fun k => rfl, fun k => rfl, fun k => rfl⟩
  intro d hd
  rcases hd with hd | hd <;> simp [emptyProject, keysOf] at hd

/-- C7 is false as stated: `__eq__` never compares the `includes`
collection, so two projects that differ only in their includes compare
equal. -/
theorem project_eq_ignores_includes_counterexample :
    emptyProject.eq (OrbiterProject.mk [] [] [] [] [] [] [("f", ⟨"f", "x"⟩)]) =
      some true ∧
    emptyProject.includes ≠
      (OrbiterProject.mk [] [] [] [] [] [] [("f", ⟨"f", "x"⟩)]).includes :=
  ⟨rfl, by decide⟩

-- ### C9

theorem walkF_agree (f : Nat) :
    (∀ t p, depthThing t ≤ f → walkThingF f t p = some (walkThing t p)) ∧
    (∀ ts p, depthList ts ≤ f → addRecursivelyF f ts p = some (addRecursively ts p)) := by
  induction f with
  | zero =>
      constructor
      · intro t p hd
        exfalso
        cases t <;> simp [depthThing] at hd
      · intro ts p hd
        cases ts with
        | nil => rfl
        | cons t ts =>
            exfalso
            have h1 : 1 ≤ depthThing t := by
              cases t <;> simp [depthThing]
            have h2 : depthThing t ≤ depthList (t :: ts) := by
              show depthThing t ≤ max (depthThing t) (depthList ts)
              exact Nat.le_max_left _ _
            omega
  | succ f ih =>
      have hThing : ∀ t p, depthThing t ≤ f + 1 →
          walkThingF (f + 1) t p = some (walkThing t p) := by
        intro t p hd
        cases t with
        | str s => rfl
        | container xs => rfl
        | taskGroup es ts fs =>
            have hmax : max (depthList ts) (depthList fs) ≤ f := by
              have : max (depthList ts) (depthList fs) + 1 ≤ f + 1 := hd
              omega
            have hts : depthList ts ≤ f := le_trans (Nat.le_max_left _ _) hmax
            have hfs : depthList fs ≤ f := le_trans (Nat.le_max_right _ _) hmax
            show (match addRecursivelyF f ts (addEntitySets p es) with
              | some q => addRecursivelyF f fs q
              | none => none) =
              some (addRecursively fs (addRecursively ts (addEntitySets p es)))
            rw [ih.2 ts (addEntitySets p es) hts]
            exact ih.2 fs (addRecursively ts (addEntitySets p es)) hfs
        | model es fs =>
            have hfs : depthList fs ≤ f := by
              have : depthList fs + 1 ≤ f + 1 := hd
              omega
            exact ih.2 fs (addEntitySets p es) hfs
      constructor
      · exact hThing
      · intro ts
        induction ts with
        | nil => intro p hd; rfl
        | cons t ts ihts =>
            intro p hd
            have hdt : depthThing t ≤ f + 1 :=
              le_trans (Nat.le_max_left _ _) hd
            have hdts : depthList ts ≤ f + 1 :=
              le_trans (Nat.le_max_right _ _) hd
            show (match walkThingF (f + 1) t p with
              | some q => addRecursivelyF (f + 1) ts q
              | none => none) = some (addRecursively ts (walkThing t p))
            rw [hThing t p hdt]
            exact ihts (walkThing t p) hdts

/-- C9 (amended): the Dependency Walker terminates on every finite
tree-shaped entity graph — a recursion budget equal to the input's nesting
depth always suffices, with strings excluded from recursion (a string
node contributes nothing) — but the source installs no defensive depth
cap of its own and defines no `StructuralError`: exhausting the budget is
the host interpreter's recursion-limit error (the fueled walker's `none`),
which the code never converts into a `StructuralError`. -/
theorem walker_terminates (t : Thing) (ts : List Thing) (p : OrbiterProject)
    (f : Nat) (hf : depthThing t ≤ f) (hfs : depthList ts ≤ f) :
    walkThingF f t p = some (walkThing t p) ∧
    addRecursivelyF f ts p = some (addRecursively ts p) ∧
    (∀ s, walkThing (Thing.str s) p = p) :=
  ⟨(walkF_agree f).1 t p hf, (walkF_agree f).2 ts p hfs, fun _ => rfl⟩

theorem walker_terminates_witness :
    walkThingF 2 (Thing.model noEntities [Thing.str "x"]) emptyProject =
      some (walkThing (Thing.model noEntities [Thing.str "x"]) emptyProject) ∧
    walkThing (Thing.str "x") emptyProject = emptyProject := by
  have h := walker_terminates (Thing.model noEntities [Thing.str "x"])
    [Thing.str "x"] emptyProject 2 (by decide) (by decide)
  exact ⟨h.1, h.2.2 "x"⟩

/-- A pathologically deep chain of nested pydantic models. -/
def deepChain : Nat → Thing
  | 0 => Thing.model noEntities []
  | n + 1 => Thing.model noEntities [deepChain n]

theorem deepChain_depth (n : Nat) : depthThing (deepChain n) = n + 1 := by
  induction n with
  | zero => rfl
  | succ n ih =>
      show max (depthThing (deepChain n)) (depthList []) + 1 = n + 1 + 1
      rw [ih]
      show max (n + 1) 0 + 1 = n + 1 + 1
      rw [Nat.max_zero]

/-- C9 is false as stated: no `StructuralError` is ever raised.  An
`add_dags` call whose task is nested 3001 levels deep — far beyond any
sane defensive recursion bound (Python's own default limit is 1000) —
returns normally, storing the DAG and touching no other collection. -/
theorem walker_no_structural_error_counterexample :
    (emptyProject.add_dags
      [⟨"d", "f", [("t", deepChain 3000)], noEntities, []⟩]).dags =
      [("d", ⟨"d", "f", [("t", deepChain 3000)], noEntities, []⟩)] ∧
    depthThing (deepChain 3000) = 3001 := by
  constructor
  · rw [add_dags_dags_eq]
    rfl
  · exact deepChain_depth 3000

-- ### C1

theorem keyCount_eq_one {α : Type} (d : Dict α) (k : String)
    (h : hasKey d k = true) (hn : nodupKeys d) : (keysOf d).count k = 1 :=
  List.count_eq_one_of_mem hn ((hasKey_iff_mem d k).mp h)

/-- C1 (amended): after `add_dags`, every pool, connection, variable, env
var, include, and requirement that the dependency walker visits in the
workflow's task graph — through the named `orbiter_*` attributes,
`TaskGroup` task lists at any nesting depth, chains of model-attribute
values such as callbacks attached to tasks, and the workflow's own
schedule attributes — is present exactly once in the project's
corresponding collection (under its identity key; a requirement by
structural equality).  Entities nested inside plain containers
(list/dict/set values of generic fields) are *not* visited (see the
counterexample), which is the one restriction on the claim's "arbitrary
nesting depth". -/
theorem add_dags_discovers_reachable (p : OrbiterProject) (dag : OrbiterDAG)
    (hp : WFproj p) :
    (∀ x ∈ (dagFound dag).pools,
      (keysOf (p.add_dags [dag]).pools).count x.name = 1) ∧
    (∀ x ∈ (dagFound dag).conns,
      (keysOf (p.add_dags [dag]).connections).count x.conn_id = 1) ∧
    (∀ x ∈ (dagFound dag).vars,
      (keysOf (p.add_dags [dag]).vars).count x.key = 1) ∧
    (∀ x ∈ (dagFound dag).envs,
      (keysOf (p.add_dags [dag]).env_vars).count x.key = 1) ∧
    (∀ x ∈ (dagFound dag).incs,
      (keysOf (p.add_dags [dag]).includes).count x.filepath = 1) ∧
    (∀ x ∈ (dagFound dag).reqs, ((p.add_dags [dag]).requirements).count x = 1) := by
  have hsplit : ∃ p1, p.add_dags [dag] =
      addRecursively [dagToThing dag]
        (addRecursively (dag.tasks.map (fun kv => kv.2)) p1) := by
    cases hget : dictGet p.dags dag.dag_id with
    | some old =>
        refine ⟨{ p with dags := dictInsert p.dags dag.dag_id (old.merge dag) }, ?_⟩
        unfold OrbiterProject.add_dags
        simp [List.foldl, hget]
    | none =>
        refine ⟨{ p with dags := dictInsert p.dags dag.dag_id dag }, ?_⟩
        unfold OrbiterProject.add_dags
        simp [List.foldl, hget]
  rcases hsplit with ⟨p1, heq⟩
  have hall : AllIn (dagFound dag) (p.add_dags [dag]) := by
    rw [heq]
    exact allIn_app
      (allIn_mono (addRecursively_allIn (dag.tasks.map (fun kv => kv.2)) p1)
        (addRecursively_mono [dagToThing dag] _))
      (walkThing_allIn (dagToThing dag) _)
  have hwf : WFproj (p.add_dags [dag]) := add_dags_wf [dag] p hp
  refine ⟨?_, ?_, ?_, ?_, ?_, ?_⟩
  · intro x hx
    exact keyCount_eq_one _ _ (hall.1 x hx) hwf.2.2.1
  · intro x hx
    exact keyCount_eq_one _ _ (hall.2.1 x hx) hwf.2.2.2.1
  · intro x hx
    exact keyCount_eq_one _ _ (hall.2.2.1 x hx) hwf.2.2.2.2.1
  · intro x hx
    exact keyCount_eq_one _ _ (hall.2.2.2.1 x hx) hwf.2.2.2.2.2.1
  · intro x hx
    exact keyCount_eq_one _ _ (hall.2.2.2.2.1 x hx) hwf.2.2.2.2.2.2
  · intro x hx
    exact List.count_eq_one_of_mem hwf.2.1 (hall.2.2.2.2.2 x hx)

/-- A workflow exercising the discovery depths the spec names: a pool,
connections, variables and env vars on a task inside a task group, a
further connection on a callback attached to that task, env vars and
includes on the DAG itself, and a requirement on the DAG's schedule. -/
def exampleDag : OrbiterDAG :=
  ⟨"dagw", "dagw.py",
   [("tg", Thing.taskGroup
      ⟨none, [], [], [], [],
       [⟨["TaskGroup"], "airflow.utils.task_group", some "apache-airflow", none⟩]⟩
      [Thing.model
        ⟨some ⟨"pool1", "", 1⟩, [⟨"conn1", "generic"⟩], [⟨"var1", "v"⟩],
         [⟨"env1", "v"⟩], [],
         [⟨["BashOperator"], "airflow.operators.bash", some "apache-airflow", none⟩]⟩
        [Thing.model ⟨none, [⟨"SMTP", "smtp"⟩], [], [], [], []⟩ []]]
      [])],
   ⟨none, [], [], [⟨"denv", "v"⟩], [⟨"inc.txt", "contents"⟩],
    [⟨["DAG"], "airflow", some "apache-airflow", none⟩]⟩,
   [Thing.model ⟨none, [], [], [], [],
     [⟨["MultiCronTimetable"], "multi_cron_timetable", some "croniter", none⟩]⟩ []]⟩

theorem add_dags_discovers_reachable_witness :
    (keysOf (emptyProject.add_dags [exampleDag]).pools).count "pool1" = 1 ∧
    (keysOf (emptyProject.add_dags [exampleDag]).connections).count "SMTP" = 1 ∧
    (keysOf (emptyProject.add_dags [exampleDag]).includes).count "inc.txt" = 1 ∧
    ((emptyProject.add_dags [exampleDag]).requirements).count
      ⟨["MultiCronTimetable"], "multi_cron_timetable", some "croniter", none⟩ = 1 := by
  have h := add_dags_discovers_reachable emptyProject exampleDag (by decide)
  exact ⟨h.1 ⟨"pool1", "", 1⟩ (by decide),
    h.2.1 ⟨"SMTP", "smtp"⟩ (by decide),
    h.2.2.2.2.1 ⟨"inc.txt", "contents"⟩ (by decide),
    h.2.2.2.2.2 ⟨["MultiCronTimetable"], "multi_cron_timetable", some "croniter", none⟩
      (by decide)⟩

/-- C1 is false as stated: an entity nested at arbitrary depth is not
always discovered — a pool carried by a model sitting inside a plain list
value of a generic attribute is reachable in the workflow's task graph
(the spec's own reachability includes "a list item"), yet `add_dags`
leaves the pools collection empty, because the walker recurses only into
pydantic models and skips plain containers found among attribute values. -/
theorem container_nested_pool_counterexample :
    (⟨"hidden", "", 1⟩ : OrbiterPool) ∈
      (dagSpecFound ⟨"d", "f",
        [("t", Thing.model noEntities
          [Thing.container
            [Thing.model ⟨some ⟨"hidden", "", 1⟩, [], [], [], [], []⟩ []]])],
        noEntities, []⟩).pools ∧
    (emptyProject.add_dags [⟨"d", "f",
        [("t", Thing.model noEntities
          [Thing.container
            [Thing.model ⟨some ⟨"hidden", "", 1⟩, [], [], [], [], []⟩ []]])],
        noEntities, []⟩]).pools = [] := by
  constructor
  · decide
  · decide
